import Mathlib

/-!
Verification of the solvid Word add-in edit-plan interpreter.

The TypeScript sources are shallowly embedded: the Word document host is
modelled as a plain value (a list of paragraphs together with the content
controls, bookmarks and selection that live in it), JavaScript strings are
Lean `String`s with the JS primitives (`trim`, `toLowerCase`, `includes`,
`startsWith`, `split(/\s+/)`, `substring`) re-implemented over `List Char`,
JS numbers used in the fuzzy-match scores are modelled as `Rat`, and every
fallible entry point returns `Except`/a structured result value instead of
throwing.  Word API batching (`Word.run`/`context.sync`) is pure
sequencing and is dropped; each executor is translated directly from its
source function.
-/

namespace Solvid

/-! ### JavaScript string primitives -/

/-- Character comparison used by case-insensitive scans: JS `toLowerCase`
is modelled by `Char.toLower` (ASCII; all inputs in the claims are ASCII). -/
def jsToLower (s : String) : String := ⟨s.data.map Char.toLower⟩

/-- `l` with leading and trailing whitespace removed, the char-list core of
JS `String.prototype.trim`. -/
def trimChars (l : List Char) : List Char :=
  ((l.dropWhile Char.isWhitespace).reverse.dropWhile Char.isWhitespace).reverse

/-- JS `s.trim()`. -/
def jsTrim (s : String) : String := ⟨trimChars s.data⟩

/-- `sub` occurs contiguously inside `l`. -/
def listInfix (sub : List Char) : List Char → Bool
  | [] => sub.isEmpty
  | c :: rest => sub.isPrefixOf (c :: rest) || listInfix sub rest

/-- JS `s.includes(sub)`: `sub` occurs contiguously inside `s`. -/
def strIncludes (s sub : String) : Bool := listInfix sub.data s.data

/-- JS `s.startsWith(pre)`. -/
def strStartsWith (s pre : String) : Bool := pre.data.isPrefixOf s.data

/-- JS `s.substring(0, n)`. -/
def strTake (s : String) (n : Nat) : String := ⟨s.data.take n⟩

/-- JS `s.split(/\s+/)` on an already-trimmed string: maximal runs of
non-whitespace characters. -/
def jsSplitWs (s : String) : List String :=
  (s.split Char.isWhitespace).filter (fun w => w ≠ "")

/-! ### The document host model

A paragraph carries its named style and text plus the font/alignment
fields the executors mutate.  Content controls and bookmarks are anchored
at a paragraph index; the selection, when present, is a paragraph index. -/

structure Para where
  style : String
  text : String
  fontColor : Option String := none
  fontBold : Option Bool := none
  alignment : Option String := none
  deriving Repr, DecidableEq

structure ContentControl where
  tag : String
  paraIdx : Nat
  deriving Repr, DecidableEq

structure Bookmark where
  name : String
  paraIdx : Nat
  deriving Repr, DecidableEq

structure Doc where
  contentControls : List ContentControl
  bookmarks : List Bookmark
  paras : List Para
  selection : Option Nat := none
  deriving Repr, DecidableEq

/-- A resolved `Word.Range`, identified by the host object it came from. -/
inductive RangeRef where
  | contentControl (i : Nat)
  | bookmark (i : Nat)
  | paragraph (i : Nat)
  | selection (i : Nat)
  | body
  deriving Repr, DecidableEq

/-- `style === "Heading 1" || style === "Heading 2" || style === "Heading 3"`. -/
def isHeadingStyle (s : String) : Bool :=
  s = "Heading 1" || s = "Heading 2" || s = "Heading 3"

/-! ### Anchor resolution (`execution engine`, strategies 1-4) -/

structure AnchorNotFoundError where
  message : String
  anchor : String
  deriving Repr, DecidableEq

/-- Strategy 1 (`resolveContentControl`): first content control whose tag
equals the anchor. -/
def resolveContentControl (doc : Doc) (anchor : String) : Option RangeRef :=
  (doc.contentControls.findIdx? (fun cc => cc.tag = anchor)).map RangeRef.contentControl

/-- Strategy 2 (`resolveBookmark`): first bookmark whose name equals the anchor. -/
def resolveBookmark (doc : Doc) (anchor : String) : Option RangeRef :=
  (doc.bookmarks.findIdx? (fun bm => bm.name = anchor)).map RangeRef.bookmark

/-- The heading test of strategy 3: heading style, and the lowered+trimmed
paragraph text equals, contains, or is contained in the lowered+trimmed anchor. -/
def headingAnchorMatches (anchorLower : String) (p : Para) : Bool :=
  isHeadingStyle p.style &&
    (let paraText := jsTrim (jsToLower p.text)
     paraText = anchorLower || strIncludes paraText anchorLower ||
       strIncludes anchorLower paraText)

/-- Strategy 3 (`resolveHeadingText`): first matching heading paragraph. -/
def resolveHeadingText (doc : Doc) (anchor : String) : Option RangeRef :=
  let anchorLower := jsTrim (jsToLower anchor)
  (doc.paras.findIdx? (headingAnchorMatches anchorLower)).map RangeRef.paragraph

/-- Strategy 4 (`resolveDefaultAnchor`): the current selection if any,
else the whole-document body range.  Always succeeds. -/
def resolveDefaultAnchor (doc : Doc) : RangeRef :=
  match doc.selection with
  | some i => RangeRef.selection i
  | none => RangeRef.body

/-- `resolveAnchor`: the four strategies in priority order; strategy 4 only
for the `"main"` anchor; `AnchorNotFoundError` carrying the anchor otherwise. -/
def resolveAnchor (doc : Doc) (anchor : String) : Except AnchorNotFoundError RangeRef :=
  match resolveContentControl doc anchor with
  | some r => Except.ok r
  | none =>
    match resolveBookmark doc anchor with
    | some r => Except.ok r
    | none =>
      match resolveHeadingText doc anchor with
      | some r => Except.ok r
      | none =>
        if anchor = "main" then Except.ok (resolveDefaultAnchor doc)
        else Except.error
          ⟨"Could not resolve anchor \"" ++ anchor ++
             "\". Tried content controls, bookmarks, heading text, and default location.",
           anchor⟩

end Solvid

namespace Solvid

/-- A helper: a successful `findIdx?` from a membership witness. -/
theorem findIdx?_isSome_of_mem {α : Type} {p : α → Bool} {l : List α} {x : α}
    (hx : x ∈ l) (hpx : p x = true) : (l.findIdx? p).isSome = true := by
  induction l with
  | nil => cases hx
  | cons a t ih =>
    rw [List.findIdx?_cons]
    cases hpa : p a with
    | true => rfl
    | false =>
      rcases List.mem_cons.mp hx with rfl | hxt
      · rw [hpa] at hpx; cases hpx
      · simpa using ih hxt

end Solvid

namespace Solvid

/-! ### EditPlan data model (`types/edit-plan.ts`) -/

structure BlockStyle where
  color : Option String := none
  alignment : Option String := none
  bold : Option Bool := none
  deriving Repr, DecidableEq

inductive Block where
  | paragraph (text : String) (style : Option BlockStyle)
  | heading (level : Nat) (text : String) (style : Option BlockStyle)
  deriving Repr, DecidableEq

inductive EditAction where
  | replace_section (anchor : String) (blocks : List Block)
  | update_heading_style (target : String) (heading_text : Option String) (style : BlockStyle)
  | update_text_format (target : String) (style : BlockStyle)
  | correct_text (search_text replacement_text : String) (case_sensitive : Option Bool)
  | insert_text (anchor : String) (location : String) (heading_text : Option String)
      (position : Option Int) (blocks : List Block)
  deriving Repr, DecidableEq

structure EditPlan where
  version : String
  actions : List EditAction
  deriving Repr, DecidableEq

/-- `ExecutionError` (`errors.ts`); the optional wrapped `originalError`
carries no information the claims need and is dropped. -/
structure ExecutionError where
  message : String
  deriving Repr, DecidableEq

/-- `ExecutionResult` (`errors.ts`): `{ok:true,message}` or
`{ok:false,error_type,message,details?}` (optional `details` dropped). -/
inductive ExecResult where
  | success (message : String)
  | failure (error_type : String) (message : String)
  deriving Repr, DecidableEq

/-! ### Shared formatting helper (`applyBlockFormatting`) -/

/-- The `alignmentMap[...] || Word.Alignment.left` lookup. -/
def alignmentMapped (al : String) : String :=
  if al = "left" then "left"
  else if al = "center" then "centered"
  else if al = "right" then "right"
  else if al = "justify" then "justified"
  else "left"

/-- `applyBlockFormatting(para, style)`: sets font colour (with a leading
`#` stripped), bold, and alignment.  JS truthiness: an absent or empty
`color`/`alignment` is skipped. -/
def applyBlockFormatting (p : Para) (style? : Option BlockStyle) : Para :=
  match style? with
  | none => p
  | some st =>
    let p1 := match st.color with
      | some c =>
        if c ≠ "" then
          { p with fontColor := some (if strStartsWith c "#" then c.drop 1 else c) }
        else p
      | none => p
    let p2 := match st.bold with
      | some b => { p1 with fontBold := some b }
      | none => p1
    match st.alignment with
    | some al => if al ≠ "" then { p2 with alignment := some (alignmentMapped al) } else p2
    | none => p2

/-! ### Literal text search (`body.search` with wildcards disabled)

Word's whole-body literal search is modelled per paragraph: matches are
found left to right, non-overlapping, and each is replaced without
re-scanning the replacement text.  The scans use an explicit fuel argument
(the haystack length) so they evaluate inside the kernel. -/

def ciCharEq (ci : Bool) (a b : Char) : Bool :=
  if ci then a.toLower = b.toLower else a = b

/-- Does `pat` start `hay`, modulo case when `ci` is set? -/
def ciPrefixAt (ci : Bool) : List Char → List Char → Bool
  | [], _ => true
  | _ :: _, [] => false
  | a :: pat, b :: hay => ciCharEq ci a b && ciPrefixAt ci pat hay

def countScanF (pat : List Char) (ci : Bool) : Nat → List Char → Nat
  | 0, _ => 0
  | _ + 1, [] => 0
  | fuel + 1, c :: rest =>
    if !pat.isEmpty && ciPrefixAt ci pat (c :: rest) then
      1 + countScanF pat ci fuel (rest.drop (pat.length - 1))
    else countScanF pat ci fuel rest

/-- Number of (non-overlapping, leftmost) matches of `pat` in `s`. -/
def countOccurrences (s pat : String) (matchCase : Bool) : Nat :=
  countScanF pat.data (!matchCase) s.data.length s.data

def replaceScanF (pat repl : List Char) (ci : Bool) : Nat → List Char → List Char
  | 0, l => l
  | _ + 1, [] => []
  | fuel + 1, c :: rest =>
    if !pat.isEmpty && ciPrefixAt ci pat (c :: rest) then
      repl ++ replaceScanF pat repl ci fuel (rest.drop (pat.length - 1))
    else c :: replaceScanF pat repl ci fuel rest

/-- Every match of `pat` in `s` replaced by `repl`. -/
def replaceAllStr (s pat repl : String) (matchCase : Bool) : String :=
  ⟨replaceScanF pat.data repl.data (!matchCase) s.data.length s.data⟩

/-! ### Paragraph-list surgery helpers for the host model -/

def modifyPara (paras : List Para) (i : Nat) (f : Para → Para) : List Para :=
  paras.enum.map (fun q => if q.1 = i then f q.2 else q.2)

def insertParasAt (paras : List Para) (i : Nat) (new : List Para) : List Para :=
  paras.take i ++ new ++ paras.drop i

/-- The paragraph a resolved range lives on (content controls, bookmarks
and the selection are anchored at single paragraphs in this host model). -/
def rangeParaIdx (doc : Doc) : RangeRef → Nat
  | RangeRef.contentControl i =>
      ((doc.contentControls.get? i).map ContentControl.paraIdx).getD 0
  | RangeRef.bookmark i => ((doc.bookmarks.get? i).map Bookmark.paraIdx).getD 0
  | RangeRef.paragraph i => i
  | RangeRef.selection i => i
  | RangeRef.body => 0

/-! ### Fuzzy heading search (the shared inline loop of
`executeInsertText` and `executeUpdateHeadingStyle`) -/

/-- The score of one non-exact heading candidate; both strings arrive
lowered and trimmed.  JS floats are modelled as `Rat`. -/
def headingCandidateScore (searchText paraText : String) : Rat :=
  if strIncludes paraText searchText then
    (searchText.length : Rat) / (paraText.length : Rat)
  else if strIncludes searchText paraText then
    (paraText.length : Rat) / (searchText.length : Rat) * (1/2)
  else
    let searchWords := jsSplitWs searchText
    let headingWords := jsSplitWs paraText
    let wordMatches := (searchWords.filter (fun w =>
      w.length > 2 && headingWords.any (fun hw => strIncludes hw w || strIncludes w hw))).length
    if wordMatches > 0 then (wordMatches : Rat) / (searchWords.length : Rat) * (3/10)
    else 0

/-- The scan over the (indexed) paragraphs: an exact lowered+trimmed match
returns immediately; otherwise the best strictly-improving score is kept
and accepted at the end only above the `0.1` threshold. -/
def fbhmGo (searchText : String) : List (Nat × Para) → Option (Nat × Rat) → Option Nat
  | [], some (i, sc) => if sc > 1/10 then some i else none
  | [], none => none
  | (i, p) :: rest, best =>
    if isHeadingStyle p.style then
      let paraText := jsTrim (jsToLower p.text)
      if paraText = searchText then some i
      else
        let sc := headingCandidateScore searchText paraText
        let best' :=
          match best with
          | none => if sc > 0 then some (i, sc) else none
          | some (j, bs) => if sc > bs then some (i, sc) else some (j, bs)
        fbhmGo searchText rest best'
    else fbhmGo searchText rest best

def findBestHeadingMatch (paras : List Para) (headingText : String) : Option Nat :=
  fbhmGo (jsTrim (jsToLower headingText)) paras.enum none

/-! ### The five action executors (`execution engine`) -/

/-- `renderBlockRS`: how `executeReplaceSection` materialises one block:
`insertParagraph`, then the style name, then `applyBlockFormatting`. -/
def renderBlockRS : Block → Para
  | Block.paragraph text style => applyBlockFormatting { style := "Normal", text := text } style
  | Block.heading level text style =>
      applyBlockFormatting { style := "Heading " ++ toString level, text := text } style

/-- In `executeInsertText` paragraph blocks get style `"Normal"` but no
`applyBlockFormatting` call; heading blocks get both. -/
def renderBlockIT : Block → Para
  | Block.paragraph text _ => { style := "Normal", text := text }
  | Block.heading level text style =>
      applyBlockFormatting { style := "Heading " ++ toString level, text := text } style

/-- Clear the target range, then insert the rendered blocks before it,
chaining insert-after (`executeReplaceSection`, non-`"main"` path). -/
def replaceAtTarget (doc : Doc) (i : Nat) (blocks : List Block) : Doc :=
  let cleared := modifyPara doc.paras i (fun p => { p with text := "" })
  { doc with paras := insertParasAt cleared i (blocks.map renderBlockRS) }

def executeReplaceSection (doc : Doc) (anchor : String) (blocks : List Block) :
    Except ExecutionError Doc :=
  let wrap := fun (msg : String) =>
    (⟨"Failed to execute replace_section action: " ++ msg⟩ : ExecutionError)
  if anchor = "selected" then
    match doc.contentControls.findIdx?
        (fun cc => strStartsWith cc.tag "solvid-selected-") with
    | none => Except.error (wrap "Selected content not found. Please select text and try again.")
    | some ccIdx =>
      Except.ok (replaceAtTarget doc
        (((doc.contentControls.get? ccIdx).map ContentControl.paraIdx).getD 0) blocks)
  else
    match resolveAnchor doc anchor with
    | Except.error e => Except.error (wrap e.message)
    | Except.ok r =>
      if anchor = "main" then
        -- body.clear() removes all content (and with it the controls,
        -- bookmarks and selection living in the body), then the blocks are
        -- inserted into the empty body in order.
        Except.ok { contentControls := [], bookmarks := [],
                    paras := blocks.map renderBlockRS, selection := none }
      else
        Except.ok (replaceAtTarget doc (rangeParaIdx doc r) blocks)

/-- Paragraph character offsets for the `at_position` lookup: paragraphs
are laid out consecutively with a one-character paragraph mark. -/
def findParaAtPos (pos : Int) : Nat → Int → List Para → Option Nat
  | _, _, [] => none
  | i, start, p :: rest =>
    if start ≤ pos ∧ pos ≤ start + (p.text.length : Int) then some i
    else findParaAtPos pos (i + 1) (start + (p.text.length : Int) + 1) rest

/-- `executeInsertText`.  The action's `anchor` field is accepted but never
consulted by the source executor. -/
def executeInsertText (doc : Doc) (_anchor location : String) (heading_text : Option String)
    (position : Option Int) (blocks : List Block) : Except ExecutionError Doc :=
  let wrap := fun (msg : String) =>
    (⟨"Failed to execute insert_text action: " ++ msg⟩ : ExecutionError)
  if location = "after_heading" then
    -- JS truthiness: absent or empty heading_text fails.
    if heading_text.getD "" = "" then
      Except.error (wrap "heading_text is required when location is 'after_heading'")
    else
      match findBestHeadingMatch doc.paras (heading_text.getD "") with
      | some i =>
        Except.ok { doc with paras := insertParasAt doc.paras (i + 1) (blocks.map renderBlockIT) }
      | none =>
        Except.error (wrap ("Heading not found: \"" ++ heading_text.getD "" ++
          "\". Please check the heading text and try again."))
  else if location = "at_position" then
    match position with
    | none => Except.error (wrap "position is required when location is 'at_position'")
    | some pos =>
      match findParaAtPos pos 0 0 doc.paras with
      | some i =>
        Except.ok { doc with paras := insertParasAt doc.paras i (blocks.map renderBlockIT) }
      | none =>
        Except.ok { doc with paras := insertParasAt doc.paras 0 (blocks.map renderBlockIT) }
  else if location = "start" then
    Except.ok { doc with paras := insertParasAt doc.paras 0 (blocks.map renderBlockIT) }
  else
    Except.ok { doc with paras := doc.paras ++ blocks.map renderBlockIT }

/-- Total matches of `executeCorrectText`'s whole-body search. -/
def countOccurrencesTotal (doc : Doc) (searchText : String) (matchCase : Bool) : Nat :=
  (doc.paras.map (fun p => countOccurrences p.text searchText matchCase)).sum

def executeCorrectText (doc : Doc) (search_text replacement_text : String)
    (case_sensitive : Option Bool) : Except ExecutionError Doc :=
  let caseSensitive := case_sensitive.getD false
  if countOccurrencesTotal doc search_text caseSensitive = 0 then
    Except.error ⟨"Failed to execute correct_text action: Text not found: \"" ++
      search_text ++ "\". Please check the text and try again."⟩
  else
    Except.ok { doc with paras := doc.paras.map (fun p =>
      { p with text := replaceAllStr p.text search_text replacement_text caseSensitive }) }

def executeUpdateHeadingStyle (doc : Doc) (target : String) (heading_text : Option String)
    (style : BlockStyle) : Except ExecutionError Doc :=
  let wrap := fun (msg : String) =>
    (⟨"Failed to execute update_heading_style action: " ++ msg⟩ : ExecutionError)
  if target = "specific" && heading_text.getD "" = "" then
    Except.error (wrap "heading_text is required when target is 'specific'")
  else if target = "all" then
    Except.ok { doc with paras := doc.paras.map (fun p =>
      if isHeadingStyle p.style then applyBlockFormatting p (some style) else p) }
  else
    match findBestHeadingMatch doc.paras (heading_text.getD "") with
    | some i =>
      Except.ok { doc with
        paras := modifyPara doc.paras i (fun p => applyBlockFormatting p (some style)) }
    | none =>
      Except.error (wrap ("Heading not found: \"" ++ heading_text.getD "" ++
        "\". Please check the heading text and try again."))

/-- `isParagraph` / `isHeading` classification of `executeUpdateTextFormat`. -/
def paraClassMatches (target : String) (p : Para) : Bool :=
  let isH := isHeadingStyle p.style
  let isP := p.style = "Normal" || (!isH && !(p.style = ""))
  if target = "all" then true
  else if target = "headings" then isH
  else if target = "paragraphs" then isP
  else false

def executeUpdateTextFormat (doc : Doc) (target : String) (style : BlockStyle) :
    Except ExecutionError Doc :=
  Except.ok { doc with paras := doc.paras.map (fun p =>
    if paraClassMatches target p then applyBlockFormatting p (some style) else p) }

/-! ### The plan driver (`executeEditPlan`) -/

def execAction (a : EditAction) (doc : Doc) : Except ExecutionError Doc :=
  match a with
  | EditAction.replace_section anchor blocks => executeReplaceSection doc anchor blocks
  | EditAction.update_heading_style target ht style =>
      executeUpdateHeadingStyle doc target ht style
  | EditAction.update_text_format target style => executeUpdateTextFormat doc target style
  | EditAction.correct_text st rt cs => executeCorrectText doc st rt cs
  | EditAction.insert_text anchor loc ht pos blocks =>
      executeInsertText doc anchor loc ht pos blocks

/-- The `for ... of editPlan.actions` loop: strictly in order, stopping at
the first failure; the document state reached so far is kept. -/
def runActions : List EditAction → Doc → Doc × Option ExecutionError
  | [], d => (d, none)
  | a :: rest, d =>
    match execAction a d with
    | Except.ok d2 => runActions rest d2
    | Except.error e => (d, some e)

/-- `executeEditPlan`: a structured `ExecutionResult` is always returned,
never an exception; every failure carries `error_type` `"execution_failed"`. -/
def executeEditPlan (plan : EditPlan) (doc : Doc) : ExecResult × Doc :=
  match runActions plan.actions doc with
  | (d, none) =>
    (ExecResult.success ("Successfully executed " ++ toString plan.actions.length ++ " action(s)"), d)
  | (d, some e) => (ExecResult.failure "execution_failed" e.message, d)

end Solvid

namespace Solvid

/-- C1: `resolveAnchor` tries named-control, bookmark, heading fuzzy text,
and (only for `"main"`) the default selection-or-body fallback, in that
fixed order, returning the first success; a content control tagged `X`
beats a bookmark named `X`; and an anchor matching nothing that is not
`"main"` yields `AnchorNotFoundError` carrying that anchor. -/
theorem resolveAnchor_strategy_order (doc : Doc) (anchor : String) :
    (∀ r, resolveContentControl doc anchor = some r →
       resolveAnchor doc anchor = Except.ok r) ∧
    (resolveContentControl doc anchor = none →
       ∀ r, resolveBookmark doc anchor = some r →
         resolveAnchor doc anchor = Except.ok r) ∧
    (resolveContentControl doc anchor = none →
       resolveBookmark doc anchor = none →
       ∀ r, resolveHeadingText doc anchor = some r →
         resolveAnchor doc anchor = Except.ok r) ∧
    (resolveContentControl doc anchor = none →
       resolveBookmark doc anchor = none →
       resolveHeadingText doc anchor = none →
       anchor = "main" →
       resolveAnchor doc anchor = Except.ok (resolveDefaultAnchor doc)) ∧
    ((∃ cc ∈ doc.contentControls, cc.tag = anchor) →
       ∃ i, resolveAnchor doc anchor = Except.ok (RangeRef.contentControl i)) ∧
    (resolveContentControl doc anchor = none →
       resolveBookmark doc anchor = none →
       resolveHeadingText doc anchor = none →
       anchor ≠ "main" →
       ∃ msg, resolveAnchor doc anchor = Except.error ⟨msg, anchor⟩) := by
  refine ⟨?_, ?_, ?_, ?_, ?_, ?_⟩
  · intro r h; simp [resolveAnchor, h]
  · intro h1 r h2; simp [resolveAnchor, h1, h2]
  · intro h1 h2 r h3; simp [resolveAnchor, h1, h2, h3]
  · intro h1 h2 h3 h4; subst h4; simp [resolveAnchor, h1, h2, h3]
  · rintro ⟨cc, hmem, htag⟩
    have hsome : (doc.contentControls.findIdx? (fun c => c.tag = anchor)).isSome = true :=
      findIdx?_isSome_of_mem hmem (by simp [htag])
    rcases Option.isSome_iff_exists.mp hsome with ⟨i, hi⟩
    exact ⟨i, by simp [resolveAnchor, resolveContentControl, hi]⟩
  · intro h1 h2 h3 h4
    refine ⟨"Could not resolve anchor \"" ++ anchor ++
      "\". Tried content controls, bookmarks, heading text, and default location.", ?_⟩
    simp [resolveAnchor, h1, h2, h3, h4]

/-- A document with a content control tagged `"X"` on paragraph 0 and a
bookmark also named `"X"` on paragraph 1, for exercising the priority order. -/
def ccVsBookmarkDoc : Doc :=
  { contentControls := [⟨"X", 0⟩]
    bookmarks := [⟨"X", 1⟩]
    paras := [{ style := "Normal", text := "alpha" }, { style := "Normal", text := "beta" }]
    selection := none }

/-- Witness for C1: on `ccVsBookmarkDoc`, anchor `"X"` resolves to the
content control (never the bookmark), and the unmatched anchor `"zzz"`
fails with an `AnchorNotFoundError` carrying `"zzz"`. -/
theorem resolveAnchor_strategy_order_witness :
    (∃ i, resolveAnchor ccVsBookmarkDoc "X" = Except.ok (RangeRef.contentControl i)) ∧
    (∃ msg, resolveAnchor ccVsBookmarkDoc "zzz" = Except.error ⟨msg, "zzz"⟩) := by
  constructor
  · exact (resolveAnchor_strategy_order ccVsBookmarkDoc "X").2.2.2.2.1
      ⟨⟨"X", 0⟩, by decide, by decide⟩
  · exact (resolveAnchor_strategy_order ccVsBookmarkDoc "zzz").2.2.2.2.2
      (by decide) (by decide) (by decide) (by decide)

/-- A plan whose actions up to the first failure run successfully leaves
exactly their mutations in place and reports the failing action's error. -/
theorem runActions_append_error (pre : List EditAction) (a : EditAction)
    (post : List EditAction) (doc d1 : Doc) (e : ExecutionError)
    (h1 : runActions pre doc = (d1, none)) (h2 : execAction a d1 = Except.error e) :
    runActions (pre ++ a :: post) doc = (d1, some e) := by
  induction pre generalizing doc with
  | nil =>
    simp only [runActions, Prod.mk.injEq] at h1
    obtain ⟨rfl, -⟩ := h1
    simp [runActions, h2]
  | cons a' t ih =>
    simp only [List.cons_append, runActions] at h1 ⊢
    cases hx : execAction a' doc with
    | ok d2 => rw [hx] at h1; exact ih d2 h1
    | error e' => rw [hx] at h1; cases h1

/-- C2: `executeEditPlan` runs the actions strictly in list order; the
first failing action aborts the rest, mutations of the earlier actions are
kept (no rollback), and the function returns a structured
`{ok:false, error_type, message}` result instead of throwing; when all
actions succeed it returns `{ok:true, message}`. -/
theorem executeEditPlan_ordered_abort (v : String) (acts : List EditAction) (doc : Doc) :
    (∀ d, runActions acts doc = (d, none) →
       executeEditPlan ⟨v, acts⟩ doc =
         (ExecResult.success ("Successfully executed " ++ toString acts.length ++ " action(s)"),
          d)) ∧
    (∀ pre a post d1 e, acts = pre ++ a :: post →
       runActions pre doc = (d1, none) →
       execAction a d1 = Except.error e →
       executeEditPlan ⟨v, acts⟩ doc = (ExecResult.failure "execution_failed" e.message, d1)) := by
  constructor
  · intro d h; simp [executeEditPlan, h]
  · rintro pre a post d1 e rfl h1 h2
    simp [executeEditPlan, runActions_append_error pre a post doc d1 e h1 h2]

/-- One-paragraph document used to exercise execution failures. -/
def helloDoc : Doc :=
  { contentControls := [], bookmarks := [],
    paras := [{ style := "Normal", text := "hello world" }], selection := none }

/-- Witness for C2: a three-action plan whose second action (a
`correct_text` with no match) fails: the first action's result is kept,
the third action is never run, and a structured failure is returned. -/
theorem executeEditPlan_ordered_abort_witness :
    executeEditPlan
      ⟨"1.0", [EditAction.update_text_format "all" {},
               EditAction.correct_text "zzz" "y" none,
               EditAction.correct_text "hello" "bye" none]⟩ helloDoc =
      (ExecResult.failure "execution_failed"
        "Failed to execute correct_text action: Text not found: \"zzz\". Please check the text and try again.",
       helloDoc) :=
  (executeEditPlan_ordered_abort "1.0"
      [EditAction.update_text_format "all" {},
       EditAction.correct_text "zzz" "y" none,
       EditAction.correct_text "hello" "bye" none] helloDoc).2
    [EditAction.update_text_format "all" {}]
    (EditAction.correct_text "zzz" "y" none)
    [EditAction.correct_text "hello" "bye" none]
    helloDoc
    ⟨"Failed to execute correct_text action: Text not found: \"zzz\". Please check the text and try again."⟩
    rfl (by decide) rfl

/-- C10: whenever `executeEditPlan` reports a failure, its `error_type` is
the string `"execution_failed"`; the other two values the result type
admits (`"validation"`, `"anchor_not_found"`) are never produced here. -/
theorem executeEditPlan_error_type (plan : EditPlan) (doc : Doc) (et msg : String) (d : Doc)
    (h : executeEditPlan plan doc = (ExecResult.failure et msg, d)) :
    et = "execution_failed" := by
  unfold executeEditPlan at h
  rcases hr : runActions plan.actions doc with ⟨d', oe⟩
  rw [hr] at h
  cases oe with
  | none => simp at h
  | some e =>
    simp only [Prod.mk.injEq, ExecResult.failure.injEq] at h
    exact h.1.1.symm

/-- Witness for C10: the theorem applied to a concrete failing plan. -/
theorem executeEditPlan_error_type_witness :
    ("execution_failed" : String) = "execution_failed" :=
  executeEditPlan_error_type ⟨"1.0", [EditAction.correct_text "nowhere" "x" none]⟩ helloDoc
    "execution_failed"
    "Failed to execute correct_text action: Text not found: \"nowhere\". Please check the text and try again."
    helloDoc (by decide)

/-- A document containing the text "teh cat" twice, and its corrected form. -/
def tehDoc : Doc :=
  { contentControls := [], bookmarks := [],
    paras := [{ style := "Normal", text := "teh cat sat on the mat" },
              { style := "Normal", text := "again teh cat appears" }],
    selection := none }

def tehDocFixed : Doc :=
  { contentControls := [], bookmarks := [],
    paras := [{ style := "Normal", text := "the cat sat on the mat" },
              { style := "Normal", text := "again the cat appears" }],
    selection := none }

/-- C5: `correct_text` searches the whole document literally (honouring
`case_sensitive`, defaulted to insensitive), errors when there are zero
matches, and otherwise replaces every match; concretely, the single-action
plan replacing "teh" by "the" on a document containing "teh cat" twice
fixes both and returns `{ok:true, message:"Successfully executed 1 action(s)"}`. -/
theorem correct_text_spec (doc : Doc) (st rt : String) (cso : Option Bool) :
    (countOccurrencesTotal doc st (cso.getD false) = 0 →
       executeCorrectText doc st rt cso =
         Except.error ⟨"Failed to execute correct_text action: Text not found: \"" ++ st ++
           "\". Please check the text and try again."⟩) ∧
    (countOccurrencesTotal doc st (cso.getD false) ≠ 0 →
       executeCorrectText doc st rt cso =
         Except.ok { doc with paras := doc.paras.map (fun p =>
           { p with text := replaceAllStr p.text st rt (cso.getD false) }) }) ∧
    executeEditPlan ⟨"1.0", [EditAction.correct_text "teh" "the" none]⟩ tehDoc =
      (ExecResult.success "Successfully executed 1 action(s)", tehDocFixed) := by
  refine ⟨?_, ?_, ?_⟩
  · intro h; simp [executeCorrectText, h]
  · intro h; simp [executeCorrectText, h]
  · decide

/-- Witness for C5: the zero-match branch errors and the matching branch
replaces every occurrence, at concrete inputs. -/
theorem correct_text_spec_witness :
    executeCorrectText tehDoc "xyz" "q" none =
      Except.error ⟨"Failed to execute correct_text action: Text not found: \"xyz\". Please check the text and try again."⟩ ∧
    executeCorrectText tehDoc "teh" "the" none = Except.ok tehDocFixed := by
  constructor
  · exact (correct_text_spec tehDoc "xyz" "q" none).1 (by decide)
  · exact ((correct_text_spec tehDoc "teh" "the" none).2.1 (by decide)).trans rfl

/-! ### Fuzzy heading selection lemmas -/

/-- The score a paragraph receives against the normalised search text. -/
def paraScore (s : String) (p : Para) : Rat :=
  headingCandidateScore s (jsTrim (jsToLower p.text))

/-- An exact (lowered, trimmed) heading match short-circuits the scan: the
first exact heading wins whatever scores anything else would get. -/
theorem fbhmGo_exact (s : String) (l : List Para) :
    ∀ (n : Nat) (best : Option (Nat × Rat)) (i : Nat) (p : Para),
      l.get? i = some p → isHeadingStyle p.style = true → jsTrim (jsToLower p.text) = s →
      (∀ j q, j < i → l.get? j = some q → isHeadingStyle q.style = true →
         jsTrim (jsToLower q.text) ≠ s) →
      fbhmGo s (l.enumFrom n) best = some (n + i) := by
  induction l with
  | nil => intro n best i p hget _ _ _; simp at hget
  | cons a t ih =>
    intro n best i p hget hstyle hexact hprev
    rw [List.enumFrom_cons, fbhmGo]
    cases i with
    | zero =>
      obtain rfl : a = p := by simpa using hget
      simp [hstyle, hexact]
    | succ i' =>
      have ht : t.get? i' = some p := hget
      have hprev' : ∀ j q, j < i' → t.get? j = some q → isHeadingStyle q.style = true →
          jsTrim (jsToLower q.text) ≠ s :=
        fun j q hj => hprev (j + 1) q (Nat.succ_lt_succ hj)
      have harith : n + (i' + 1) = (n + 1) + i' := by omega
      cases hsa : isHeadingStyle a.style with
      | false =>
        simp only [Bool.false_eq_true, if_false]
        rw [harith]
        exact ih (n + 1) best i' p ht hstyle hexact hprev'
      | true =>
        have hane : jsTrim (jsToLower a.text) ≠ s := hprev 0 a (Nat.succ_pos i') rfl hsa
        simp only [if_pos rfl, if_neg hane]
        rw [harith]
        exact ih (n + 1) _ i' p ht hstyle hexact hprev'

/-- When no exact heading match exists, the scan keeps the first strict
maximum and accepts it only above the threshold: a returned index is a
heading whose score beats `1/10` and is maximal among all headings (and
beats any score already in the accumulator). -/
theorem fbhmGo_max (s : String) (l : List Para) :
    ∀ (n : Nat) (best : Option (Nat × Rat)),
      (∀ q ∈ l, isHeadingStyle q.style = true → jsTrim (jsToLower q.text) ≠ s) →
      ∀ i, fbhmGo s (l.enumFrom n) best = some i →
        (∃ bi bs, best = some (bi, bs) ∧ i = bi ∧ bs > 1/10 ∧
           ∀ q ∈ l, isHeadingStyle q.style = true → paraScore s q ≤ bs) ∨
        (∃ k p, l.get? k = some p ∧ i = n + k ∧ isHeadingStyle p.style = true ∧
           paraScore s p > 1/10 ∧
           (∀ q ∈ l, isHeadingStyle q.style = true → paraScore s q ≤ paraScore s p) ∧
           (∀ bi bs, best = some (bi, bs) → bs ≤ paraScore s p)) := by
  induction l with
  | nil =>
    intro n best hne i hr
    left
    rw [List.enumFrom_nil] at hr
    cases best with
    | none => rw [fbhmGo] at hr; cases hr
    | some b =>
      obtain ⟨bi, bs⟩ := b
      rw [fbhmGo] at hr
      by_cases hbs : bs > 1/10
      · simp only [if_pos hbs, Option.some.injEq] at hr
        exact ⟨bi, bs, rfl, hr.symm, hbs, by simp⟩
      · simp only [if_neg hbs] at hr
        exact Option.noConfusion hr
  | cons a t ih =>
    intro n best hne i hr
    have hna : ∀ q ∈ t, isHeadingStyle q.style = true → jsTrim (jsToLower q.text) ≠ s :=
      fun q hq => hne q (List.mem_cons_of_mem a hq)
    rw [List.enumFrom_cons, fbhmGo] at hr
    cases hsa : isHeadingStyle a.style with
    | false =>
      rw [hsa] at hr
      simp only [Bool.false_eq_true, if_false] at hr
      rcases ih (n + 1) best hna i hr with ⟨bi, bs, hbeq, hieq, hbs, hball⟩ |
        ⟨k, p, hget, hieq, hh, hgt, hall, hbb⟩
      · left
        refine ⟨bi, bs, hbeq, hieq, hbs, ?_⟩
        intro q hq hsq
        rcases List.mem_cons.mp hq with rfl | hqt
        · rw [hsa] at hsq; cases hsq
        · exact hball q hqt hsq
      · right
        refine ⟨k + 1, p, hget, by omega, hh, hgt, ?_, hbb⟩
        intro q hq hsq
        rcases List.mem_cons.mp hq with rfl | hqt
        · rw [hsa] at hsq; cases hsq
        · exact hall q hqt hsq
    | true =>
      rw [hsa] at hr
      have hane : jsTrim (jsToLower a.text) ≠ s := hne a (List.mem_cons_self a t) hsa
      simp only [if_pos rfl, if_neg hane] at hr
      cases best with
      | none =>
        by_cases hsc : headingCandidateScore s (jsTrim (jsToLower a.text)) > 0
        · simp only [if_pos hsc] at hr
          rcases ih (n + 1) _ hna i hr with ⟨bi, bs, hbeq, hieq, hbs, hball⟩ |
            ⟨k, p, hget, hieq, hh, hgt, hall, hbb⟩
          · right
            simp only [Option.some.injEq, Prod.mk.injEq] at hbeq
            obtain ⟨rfl, rfl⟩ := hbeq
            refine ⟨0, a, rfl, by omega, hsa, hbs, ?_, by intro bi' bs' h; cases h⟩
            intro q hq hsq
            rcases List.mem_cons.mp hq with rfl | hqt
            · exact le_refl _
            · exact hball q hqt hsq
          · right
            refine ⟨k + 1, p, hget, by omega, hh, hgt, ?_, by intro bi' bs' h; cases h⟩
            intro q hq hsq
            rcases List.mem_cons.mp hq with rfl | hqt
            · exact hbb n _ rfl
            · exact hall q hqt hsq
        · simp only [if_neg hsc] at hr
          rcases ih (n + 1) none hna i hr with ⟨bi, bs, hbeq, -, -, -⟩ |
            ⟨k, p, hget, hieq, hh, hgt, hall, -⟩
          · cases hbeq
          · right
            refine ⟨k + 1, p, hget, by omega, hh, hgt, ?_, by intro bi' bs' h; cases h⟩
            intro q hq hsq
            rcases List.mem_cons.mp hq with rfl | hqt
            · have h0 : paraScore s q ≤ 0 := le_of_not_lt hsc
              linarith
            · exact hall q hqt hsq
      | some b =>
        obtain ⟨j, bs0⟩ := b
        by_cases hcmp : headingCandidateScore s (jsTrim (jsToLower a.text)) > bs0
        · simp only [if_pos hcmp] at hr
          rcases ih (n + 1) _ hna i hr with ⟨bi, bs, hbeq, hieq, hbs, hball⟩ |
            ⟨k, p, hget, hieq, hh, hgt, hall, hbb⟩
          · right
            simp only [Option.some.injEq, Prod.mk.injEq] at hbeq
            obtain ⟨rfl, rfl⟩ := hbeq
            refine ⟨0, a, rfl, by omega, hsa, hbs, ?_, ?_⟩
            · intro q hq hsq
              rcases List.mem_cons.mp hq with rfl | hqt
              · exact le_refl _
              · exact hball q hqt hsq
            · intro bi' bs' h
              obtain ⟨rfl, rfl⟩ : bi' = j ∧ bs' = bs0 := by
                simp only [Option.some.injEq, Prod.mk.injEq] at h
                exact ⟨h.1.symm, h.2.symm⟩
              exact le_of_lt hcmp
          · right
            refine ⟨k + 1, p, hget, by omega, hh, hgt, ?_, ?_⟩
            · intro q hq hsq
              rcases List.mem_cons.mp hq with rfl | hqt
              · exact hbb n _ rfl
              · exact hall q hqt hsq
            · intro bi' bs' h
              obtain ⟨rfl, rfl⟩ : bi' = j ∧ bs' = bs0 := by
                simp only [Option.some.injEq, Prod.mk.injEq] at h
                exact ⟨h.1.symm, h.2.symm⟩
              exact le_trans (le_of_lt hcmp) (hbb n _ rfl)
        · simp only [if_neg hcmp] at hr
          rcases ih (n + 1) _ hna i hr with ⟨bi, bs, hbeq, hieq, hbs, hball⟩ |
            ⟨k, p, hget, hieq, hh, hgt, hall, hbb⟩
          · left
            simp only [Option.some.injEq, Prod.mk.injEq] at hbeq
            obtain ⟨rfl, rfl⟩ := hbeq
            refine ⟨j, bs0, rfl, hieq, hbs, ?_⟩
            intro q hq hsq
            rcases List.mem_cons.mp hq with rfl | hqt
            · exact le_of_not_lt hcmp
            · exact hball q hqt hsq
          · right
            refine ⟨k + 1, p, hget, by omega, hh, hgt, ?_, ?_⟩
            · intro q hq hsq
              rcases List.mem_cons.mp hq with rfl | hqt
              · exact le_trans (le_of_not_lt hcmp) (hbb j bs0 rfl)
              · exact hall q hqt hsq
            · intro bi' bs' h
              obtain ⟨rfl, rfl⟩ : bi' = j ∧ bs' = bs0 := by
                simp only [Option.some.injEq, Prod.mk.injEq] at h
                exact ⟨h.1.symm, h.2.symm⟩
              exact hbb bi' bs' rfl

/-- The "Intro" tie-break example, in both document orders. -/
def introParas : List Para :=
  [{ style := "Heading 1", text := "Introduction" },
   { style := "Heading 1", text := "Intro to Topics" }]

def introParasRev : List Para :=
  [{ style := "Heading 1", text := "Intro to Topics" },
   { style := "Heading 1", text := "Introduction" }]

/-- C6: the fuzzy heading scoring: an exact (case-insensitive, trimmed)
match short-circuits; search-in-heading containment scores
`searchLength/headingLength`; heading-in-search containment scores
`headingLength/searchLength * 0.5`; otherwise matched-token-fraction
`* 0.3`; the highest-scoring heading above the `0.1` threshold is
selected; and resolving `"Intro"` against `"Introduction"` and
`"Intro to Topics"` (either order) selects `"Introduction"`. -/
theorem heading_fuzzy_match_spec :
    (∀ s p : String, strIncludes p s = true →
       headingCandidateScore s p = (s.length : Rat) / (p.length : Rat)) ∧
    (∀ s p : String, strIncludes p s = false → strIncludes s p = true →
       headingCandidateScore s p = (p.length : Rat) / (s.length : Rat) * (1/2)) ∧
    (∀ s p : String, strIncludes p s = false → strIncludes s p = false →
       headingCandidateScore s p =
         (if 0 < ((jsSplitWs s).filter (fun w => w.length > 2 &&
              (jsSplitWs p).any (fun hw => strIncludes hw w || strIncludes w hw))).length
          then (((jsSplitWs s).filter (fun w => w.length > 2 &&
              (jsSplitWs p).any (fun hw => strIncludes hw w || strIncludes w hw))).length : Rat) /
            ((jsSplitWs s).length : Rat) * (3/10)
          else 0)) ∧
    (∀ (paras : List Para) (ht : String) (i : Nat) (p : Para),
       paras.get? i = some p → isHeadingStyle p.style = true →
       jsTrim (jsToLower p.text) = jsTrim (jsToLower ht) →
       (∀ j q, j < i → paras.get? j = some q → isHeadingStyle q.style = true →
          jsTrim (jsToLower q.text) ≠ jsTrim (jsToLower ht)) →
       findBestHeadingMatch paras ht = some i) ∧
    (∀ (paras : List Para) (ht : String),
       (∀ q ∈ paras, isHeadingStyle q.style = true →
          jsTrim (jsToLower q.text) ≠ jsTrim (jsToLower ht)) →
       ∀ i, findBestHeadingMatch paras ht = some i →
         ∃ p, paras.get? i = some p ∧ isHeadingStyle p.style = true ∧
           paraScore (jsTrim (jsToLower ht)) p > 1/10 ∧
           ∀ q ∈ paras, isHeadingStyle q.style = true →
             paraScore (jsTrim (jsToLower ht)) q ≤ paraScore (jsTrim (jsToLower ht)) p) ∧
    findBestHeadingMatch introParas "Intro" = some 0 ∧
    findBestHeadingMatch introParasRev "Intro" = some 1 := by
  have e1 : jsTrim (jsToLower "Intro") = "intro" := by decide
  have hs : isHeadingStyle "Heading 1" = true := by decide
  have p0 : jsTrim (jsToLower "Introduction") = "introduction" := by decide
  have p1 : jsTrim (jsToLower "Intro to Topics") = "intro to topics" := by decide
  have s0 : headingCandidateScore "intro" "introduction" = 5/12 := by
    have h : strIncludes "introduction" "intro" = true := by decide
    have l1 : ("intro".length : Rat) = 5 := by norm_num [String.length]
    have l2 : ("introduction".length : Rat) = 12 := by norm_num [String.length]
    simp [headingCandidateScore, h, l1, l2]
  have s1 : headingCandidateScore "intro" "intro to topics" = 1/3 := by
    have h : strIncludes "intro to topics" "intro" = true := by decide
    have l1 : ("intro".length : Rat) = 5 := by norm_num [String.length]
    have l2 : ("intro to topics".length : Rat) = 15 := by norm_num [String.length]
    simp [headingCandidateScore, h, l1, l2]; norm_num
  refine ⟨?_, ?_, ?_, ?_, ?_, ?_, ?_⟩
  · intro s p h; simp [headingCandidateScore, h]
  · intro s p h1 h2; simp [headingCandidateScore, h1, h2]
  · intro s p h1 h2; simp [headingCandidateScore, h1, h2]
  · intro paras ht i p hget hstyle hexact hprev
    have := fbhmGo_exact (jsTrim (jsToLower ht)) paras 0 none i p hget hstyle hexact hprev
    simpa [findBestHeadingMatch] using this
  · intro paras ht hne i hfind
    have hmax := fbhmGo_max (jsTrim (jsToLower ht)) paras 0 none hne i
      (by simpa [findBestHeadingMatch] using hfind)
    rcases hmax with ⟨bi, bs, hbeq, -, -, -⟩ | ⟨k, p, hget, hieq, hh, hgt, hall, -⟩
    · cases hbeq
    · obtain rfl : i = k := by omega
      exact ⟨p, hget, hh, hgt, hall⟩
  · have ne0 : ("introduction" : String) ≠ "intro" := by decide
    have ne1 : ("intro to topics" : String) ≠ "intro" := by decide
    show fbhmGo (jsTrim (jsToLower "Intro"))
      [(0, { style := "Heading 1", text := "Introduction" }),
       (1, { style := "Heading 1", text := "Intro to Topics" })] none = some 0
    rw [e1]
    simp only [fbhmGo, hs, p0, p1, s0, s1, eq_self_iff_true, if_true,
      if_neg ne0, if_neg ne1]
    norm_num
    rw [fbhmGo]
    norm_num
  · have ne0 : ("introduction" : String) ≠ "intro" := by decide
    have ne1 : ("intro to topics" : String) ≠ "intro" := by decide
    show fbhmGo (jsTrim (jsToLower "Intro"))
      [(0, { style := "Heading 1", text := "Intro to Topics" }),
       (1, { style := "Heading 1", text := "Introduction" })] none = some 1
    rw [e1]
    simp only [fbhmGo, hs, p0, p1, s0, s1, eq_self_iff_true, if_true,
      if_neg ne0, if_neg ne1]
    norm_num
    rw [fbhmGo]
    norm_num

/-- Witness for C6: the containment formula instantiated at
`"intro"`/`"introduction"`, and the exact-match short-circuit at a
one-heading document. -/
theorem heading_fuzzy_match_spec_witness :
    headingCandidateScore "intro" "introduction" =
      ("intro".length : Rat) / ("introduction".length : Rat) ∧
    findBestHeadingMatch [{ style := "Heading 2", text := "Summary" }] "Summary" = some 0 := by
  constructor
  · exact heading_fuzzy_match_spec.1 "intro" "introduction" (by decide)
  · exact heading_fuzzy_match_spec.2.2.2.1
      [{ style := "Heading 2", text := "Summary" }] "Summary" 0
      { style := "Heading 2", text := "Summary" } rfl (by decide) rfl
      (fun j q hj => absurd hj (Nat.not_lt_zero j))

end Solvid

namespace Solvid

/-! ### Plan schema validator (`validation.ts`)

The validator receives an `unknown` JSON value.  That value is modelled by
typed raw records: a field that is absent (or of the wrong primitive type,
which the source treats the same way on every path the claims touch) is
`none`; `extraKeys` lists the top-level keys of the object other than
`version` and `actions`, in insertion order (their values never influence
validation).  `ValidationError`'s optional structured `details` is never
populated by the validator and is dropped. -/

structure ValidationError where
  message : String
  deriving Repr, DecidableEq

instance instDecidableEqExcept {ε α : Type} [DecidableEq ε] [DecidableEq α] :
    DecidableEq (Except ε α) := fun x y =>
  match x, y with
  | Except.ok a, Except.ok b =>
    if h : a = b then isTrue (by rw [h]) else
      isFalse (by intro hc; injection hc; contradiction)
  | Except.error a, Except.error b =>
    if h : a = b then isTrue (by rw [h]) else
      isFalse (by intro hc; injection hc; contradiction)
  | Except.ok _, Except.error _ => isFalse (by intro hc; cases hc)
  | Except.error _, Except.ok _ => isFalse (by intro hc; cases hc)

structure RawStyle where
  color : Option String := none
  alignment : Option String := none
  bold : Option Bool := none
  deriving Repr, DecidableEq

structure RawBlock where
  type : String := ""
  text : Option String := none
  level : Option Int := none
  style : Option RawStyle := none
  deriving Repr, DecidableEq

structure RawAction where
  type : String := ""
  anchor : Option String := none
  blocks : Option (List RawBlock) := none
  target : Option String := none
  heading_text : Option String := none
  style : Option RawStyle := none
  search_text : Option String := none
  replacement_text : Option String := none
  case_sensitive : Option Bool := none
  location : Option String := none
  position : Option Int := none
  deriving Repr, DecidableEq

structure RawPlan where
  version : Option String := none
  actions : Option (List RawAction) := none
  extraKeys : List String := []
  deriving Repr, DecidableEq

def MAX_ACTIONS : Nat := 50
def MAX_BLOCKS_PER_ACTION : Nat := 100
def MAX_CHARACTERS_PER_TEXT : Nat := 100000

/-! `isValidColor`: hex `#RGB`/`#RRGGBB`, `rgb()`/`rgba()` per the source
regex, or one of the named colours (case-insensitive). -/

def isHexDigitChar (c : Char) : Bool :=
  c.isDigit || ('A' ≤ c && c ≤ 'F') || ('a' ≤ c && c ≤ 'f')

def isValidHexColor (s : String) : Bool :=
  match s.data with
  | '#' :: rest => (rest.length = 6 || rest.length = 3) && rest.all isHexDigitChar
  | _ => false

def dropWs (l : List Char) : List Char := l.dropWhile Char.isWhitespace

/-- `\d+`: one or more digits, or fail. -/
def dropDigits1 (l : List Char) : Option (List Char) :=
  let rest := l.dropWhile Char.isDigit
  if rest.length < l.length then some rest else none

/-- `[\d.]+`: one or more digits or dots, or fail. -/
def dropNumDot1 (l : List Char) : Option (List Char) :=
  let rest := l.dropWhile (fun c => Char.isDigit c || c = '.')
  if rest.length < l.length then some rest else none

/-- The `\s*\d+\s*,\s*\d+\s*,\s*\d+\s*(,\s*[\d.]+\s*)?\)$` tail of the
source's rgb/rgba regex. -/
def rgbAfterParen (l : List Char) : Bool :=
  match dropDigits1 (dropWs l) with
  | none => false
  | some l1 =>
    match dropWs l1 with
    | ',' :: l2 =>
      match dropDigits1 (dropWs l2) with
      | none => false
      | some l3 =>
        match dropWs l3 with
        | ',' :: l4 =>
          match dropDigits1 (dropWs l4) with
          | none => false
          | some l5 =>
            match dropWs l5 with
            | [')'] => true
            | ',' :: l6 =>
              match dropNumDot1 (dropWs l6) with
              | none => false
              | some l7 =>
                match dropWs l7 with
                | [')'] => true
                | _ => false
            | _ => false
        | _ => false
    | _ => false

def isValidRgbColor (s : String) : Bool :=
  match s.data with
  | 'r' :: 'g' :: 'b' :: 'a' :: '(' :: rest => rgbAfterParen rest
  | 'r' :: 'g' :: 'b' :: '(' :: rest => rgbAfterParen rest
  | _ => false

def namedColors : List String :=
  ["black", "white", "red", "green", "blue", "yellow", "cyan", "magenta",
   "gray", "grey", "orange", "purple", "pink", "brown", "navy", "teal"]

def isValidColor (color : String) : Bool :=
  isValidHexColor color || isValidRgbColor color || namedColors.contains (jsToLower color)

/-! The individual validators.  JS truthiness notes: `!block.text` is true
for an absent field and for `""` alike; `style?.color &&` skips an absent
or empty colour; the `typeof ... !== "boolean"` checks cannot fire in the
typed model (a present `bold`/`case_sensitive` is a boolean). -/

def validateParagraphBlock (block : RawBlock) (index : Nat) : Except ValidationError Unit :=
  if block.text.getD "" = "" then
    Except.error ⟨"Paragraph block at index " ++ toString index ++
      " must have a text property (string)"⟩
  else if (block.text.getD "").length > MAX_CHARACTERS_PER_TEXT then
    Except.error ⟨"Paragraph block at index " ++ toString index ++
      " exceeds maximum text length (100000)"⟩
  else if strIncludes (block.text.getD "") "\n" then
    Except.error ⟨"Paragraph block at index " ++ toString index ++
      " contains newline characters. Paragraphs must be single blocks."⟩
  else if (block.style.bind RawStyle.color).getD "" ≠ "" &&
      !isValidColor ((block.style.bind RawStyle.color).getD "") then
    Except.error ⟨"Paragraph block at index " ++ toString index ++
      " has invalid color format: " ++ (block.style.bind RawStyle.color).getD ""⟩
  else if (block.style.bind RawStyle.alignment).getD "" ≠ "" &&
      !(["left", "center", "right", "justify"].contains
          ((block.style.bind RawStyle.alignment).getD "")) then
    Except.error ⟨"Paragraph block at index " ++ toString index ++
      " has invalid alignment: " ++ (block.style.bind RawStyle.alignment).getD ""⟩
  else Except.ok ()

def validateHeadingBlock (block : RawBlock) (index : Nat) : Except ValidationError Unit :=
  if block.text.getD "" = "" then
    Except.error ⟨"Heading block at index " ++ toString index ++
      " must have a text property (string)"⟩
  else if (match block.level with
           | some l => l < 1 || l > 3
           | none => true) then
    Except.error ⟨"Heading block at index " ++ toString index ++
      " must have a level between 1 and 3"⟩
  else if (block.style.bind RawStyle.color).getD "" ≠ "" &&
      !isValidColor ((block.style.bind RawStyle.color).getD "") then
    Except.error ⟨"Heading block at index " ++ toString index ++
      " has invalid color format: " ++ (block.style.bind RawStyle.color).getD ""⟩
  else if (block.style.bind RawStyle.alignment).getD "" ≠ "" &&
      !(["left", "center", "right", "justify"].contains
          ((block.style.bind RawStyle.alignment).getD "")) then
    Except.error ⟨"Heading block at index " ++ toString index ++
      " has invalid alignment: " ++ (block.style.bind RawStyle.alignment).getD ""⟩
  else Except.ok ()

def validateBlock (block : RawBlock) (index : Nat) : Except ValidationError Unit :=
  if block.type = "paragraph" then validateParagraphBlock block index
  else if block.type = "heading" then validateHeadingBlock block index
  else
    Except.error ⟨"Block at index " ++ toString index ++ " has invalid type: " ++
      block.type ++ ". Only \"paragraph\" and \"heading\" are supported."⟩

/-- `blocks.forEach(validateBlock)`: first error wins. -/
def validateBlocks : List RawBlock → Nat → Except ValidationError Unit
  | [], _ => Except.ok ()
  | b :: rest, i =>
    match validateBlock b i with
    | Except.ok _ => validateBlocks rest (i + 1)
    | Except.error e => Except.error e

def validateReplaceSectionAction (action : RawAction) : Except ValidationError Unit :=
  if action.anchor.getD "" = "" || jsTrim (action.anchor.getD "") = "" then
    Except.error ⟨"replace_section action must have a non-empty anchor string"⟩
  else
    match action.blocks with
    | none => Except.error ⟨"replace_section action must have a blocks array"⟩
    | some blocks =>
      if blocks.length = 0 then
        Except.error ⟨"replace_section action must have at least one block"⟩
      else if blocks.length > MAX_BLOCKS_PER_ACTION then
        Except.error ⟨"replace_section action exceeds maximum blocks per action (100)"⟩
      else validateBlocks blocks 0

def validateStyleFields (st : RawStyle) (who : String) : Except ValidationError Unit :=
  if st.color.getD "" ≠ "" && !isValidColor (st.color.getD "") then
    Except.error ⟨who ++ " action has invalid color format: " ++ st.color.getD ""⟩
  else if st.alignment.getD "" ≠ "" &&
      !(["left", "center", "right", "justify"].contains (st.alignment.getD "")) then
    Except.error ⟨who ++ " action has invalid alignment: " ++ st.alignment.getD ""⟩
  else Except.ok ()

def validateUpdateHeadingStyleAction (action : RawAction) : Except ValidationError Unit :=
  if !(["all", "specific"].contains (action.target.getD "")) then
    Except.error ⟨"update_heading_style action target must be \"all\" or \"specific\""⟩
  else if action.target = some "specific" &&
      (action.heading_text.getD "" = "" || jsTrim (action.heading_text.getD "") = "") then
    Except.error ⟨"update_heading_style action with target \"specific\" must have a non-empty heading_text"⟩
  else
    match action.style with
    | none => Except.error ⟨"update_heading_style action must have a style object"⟩
    | some st => validateStyleFields st "update_heading_style"

def validateUpdateTextFormatAction (action : RawAction) : Except ValidationError Unit :=
  if !(["all", "headings", "paragraphs"].contains (action.target.getD "")) then
    Except.error ⟨"update_text_format action target must be \"all\", \"headings\", or \"paragraphs\""⟩
  else
    match action.style with
    | none => Except.error ⟨"update_text_format action must have a style object"⟩
    | some st => validateStyleFields st "update_text_format"

def validateInsertTextAction (action : RawAction) : Except ValidationError Unit :=
  if action.anchor.getD "" = "" || jsTrim (action.anchor.getD "") = "" then
    Except.error ⟨"insert_text action must have a non-empty anchor string"⟩
  else if action.location ≠ some "start" && action.location ≠ some "end" &&
      action.location ≠ some "after_heading" && action.location ≠ some "at_position" then
    Except.error ⟨"insert_text action location must be \"start\", \"end\", \"after_heading\", or \"at_position\""⟩
  else if action.location = some "after_heading" &&
      (action.heading_text.getD "" = "" || jsTrim (action.heading_text.getD "") = "") then
    Except.error ⟨"insert_text action must have heading_text when location is 'after_heading'"⟩
  else if action.location = some "at_position" && action.position.isNone then
    Except.error ⟨"insert_text action must have position (number) when location is 'at_position'"⟩
  else
    match action.blocks with
    | none => Except.error ⟨"insert_text action must have a blocks array"⟩
    | some blocks =>
      if blocks.length = 0 then
        Except.error ⟨"insert_text action must have at least one block"⟩
      else if blocks.length > MAX_BLOCKS_PER_ACTION then
        Except.error ⟨"insert_text action exceeds maximum blocks per action (100)"⟩
      else validateBlocks blocks 0

def validateCorrectTextAction (action : RawAction) : Except ValidationError Unit :=
  if action.search_text.getD "" = "" then
    Except.error ⟨"correct_text action must have a search_text string"⟩
  else if (action.search_text.getD "").length = 0 then
    -- unreachable after the truthiness check above; kept for fidelity
    Except.error ⟨"correct_text action search_text cannot be empty"⟩
  else if (action.search_text.getD "").length > MAX_CHARACTERS_PER_TEXT then
    Except.error ⟨"correct_text action search_text exceeds maximum length (100000)"⟩
  else
    match action.replacement_text with
    | none => Except.error ⟨"correct_text action must have a replacement_text string"⟩
    | some rt =>
      if rt.length > MAX_CHARACTERS_PER_TEXT then
        Except.error ⟨"correct_text action replacement_text exceeds maximum length (100000)"⟩
      else Except.ok ()

def validateAction (action : RawAction) (index : Nat) : Except ValidationError Unit :=
  if action.type = "replace_section" then validateReplaceSectionAction action
  else if action.type = "update_heading_style" then validateUpdateHeadingStyleAction action
  else if action.type = "update_text_format" then validateUpdateTextFormatAction action
  else if action.type = "correct_text" then validateCorrectTextAction action
  else if action.type = "insert_text" then validateInsertTextAction action
  else
    Except.error ⟨"Action at index " ++ toString index ++ " has invalid type: " ++
      action.type ++
      ". Only \"replace_section\", \"update_heading_style\", \"update_text_format\", \"correct_text\", and \"insert_text\" are supported."⟩

/-- `plan.actions.forEach(validateAction)`: first error wins. -/
def validateActions : List RawAction → Nat → Except ValidationError Unit
  | [], _ => Except.ok ()
  | a :: rest, i =>
    match validateAction a i with
    | Except.ok _ => validateActions rest (i + 1)
    | Except.error e => Except.error e

/-- `validateEditPlan` (`validation.ts`): version, actions array,
empty-actions short-circuit (returning a fresh `{version, actions}`
envelope), bound on the number of actions, per-action validation, and
finally the fail-closed unknown-top-level-key rejection. -/
def validateEditPlan (plan : RawPlan) : Except ValidationError RawPlan :=
  if plan.version ≠ some "1.0" then
    Except.error ⟨"EditPlan version must be \"1.0\", got: " ++ plan.version.getD "undefined"⟩
  else
    match plan.actions with
    | none => Except.error ⟨"EditPlan must have an actions array"⟩
    | some acts =>
      if acts.length = 0 then
        -- return a fresh {version, actions} object
        Except.ok { version := plan.version, actions := plan.actions, extraKeys := [] }
      else if acts.length > MAX_ACTIONS then
        Except.error ⟨"EditPlan exceeds maximum actions (50)"⟩
      else
        match validateActions acts 0 with
        | Except.error e => Except.error e
        | Except.ok _ =>
          if plan.extraKeys ≠ [] then
            Except.error ⟨"EditPlan contains unexpected fields: " ++
              String.intercalate ", " plan.extraKeys⟩
          else Except.ok plan

end Solvid
namespace Solvid

/-- The plan `{version:"1.0", actions:[], extra:1}` used to probe the
empty-actions envelope against an unknown top-level key. -/
def emptyPlanWithExtra : RawPlan :=
  { version := some "1.0", actions := some [], extraKeys := ["extra"] }

/-- C3 counterexample: an object with `version:"1.0"`, empty `actions` and
one more top-level key is not returned as-is — the extra key is dropped
from the returned envelope, so the result differs from the input. -/
theorem validateEditPlan_passthrough_cex :
    validateEditPlan emptyPlanWithExtra ≠ Except.ok emptyPlanWithExtra := by decide

/-- C3 (amended): an object with `version:"1.0"` and an empty `actions`
array never throws and is not validated further; the validator returns a
fresh envelope holding just that version and actions, which equals the
input exactly when the input had no other top-level keys. -/
theorem validateEditPlan_empty_envelope (p : RawPlan)
    (hv : p.version = some "1.0") (ha : p.actions = some []) :
    validateEditPlan p =
      Except.ok { version := some "1.0", actions := some [], extraKeys := [] } ∧
    (p.extraKeys = [] → validateEditPlan p = Except.ok p) := by
  constructor
  · simp [validateEditPlan, hv, ha]
  · intro hx
    have hp : p = { version := some "1.0", actions := some [], extraKeys := [] } := by
      cases p
      simp only [RawPlan.mk.injEq]
      exact ⟨hv, ha, hx⟩
    rw [hp]
    simp [validateEditPlan]

/-- Witness for C3: the empty-actions envelope at concrete inputs, with and
without an extra key. -/
theorem validateEditPlan_empty_envelope_witness :
    validateEditPlan { version := some "1.0", actions := some [], extraKeys := [] } =
      Except.ok { version := some "1.0", actions := some [], extraKeys := [] } ∧
    validateEditPlan emptyPlanWithExtra =
      Except.ok { version := some "1.0", actions := some [], extraKeys := [] } := by
  constructor
  · exact (validateEditPlan_empty_envelope
      { version := some "1.0", actions := some [], extraKeys := [] } rfl rfl).2 rfl
  · exact (validateEditPlan_empty_envelope emptyPlanWithExtra rfl rfl).1

/-- C4 counterexample: the unknown-key rejection is not universal — with
an empty `actions` array the empty-envelope short-circuit runs first and
the plan with an extra top-level key is accepted, not thrown at. -/
theorem validateEditPlan_unknown_key_cex :
    validateEditPlan emptyPlanWithExtra =
      Except.ok { version := some "1.0", actions := some [], extraKeys := [] } := by decide

/-- C4 (amended): a plan whose top-level keys go beyond
`{version, actions}` and whose `actions` array is non-empty always throws
`ValidationError`; the unknown-key rejection is the final check: an action
that fails validation reports its own error instead, and only when every
action validates (and the earlier checks pass) is the unexpected-fields
error raised. -/
theorem validateEditPlan_unknown_keys (p : RawPlan) (hx : p.extraKeys ≠ []) :
    (∀ acts, p.actions = some acts → acts ≠ [] →
       ∃ e, validateEditPlan p = Except.error e) ∧
    (∀ acts e, p.version = some "1.0" → p.actions = some acts → acts ≠ [] →
       acts.length ≤ MAX_ACTIONS → validateActions acts 0 = Except.error e →
       validateEditPlan p = Except.error e) ∧
    (∀ acts, p.version = some "1.0" → p.actions = some acts → acts ≠ [] →
       acts.length ≤ MAX_ACTIONS → validateActions acts 0 = Except.ok () →
       validateEditPlan p = Except.error
         ⟨"EditPlan contains unexpected fields: " ++
            String.intercalate ", " p.extraKeys⟩) := by
  refine ⟨?_, ?_, ?_⟩
  · intro acts ha hne
    have hlen : ¬(acts.length = 0) := by simpa using hne
    by_cases hv : p.version = some "1.0"
    · by_cases hmax : acts.length > MAX_ACTIONS
      · refine ⟨⟨"EditPlan exceeds maximum actions (50)"⟩, ?_⟩
        simp [validateEditPlan, hv, ha, hlen, hmax]
      · cases hval : validateActions acts 0 with
        | error e =>
          refine ⟨e, ?_⟩
          simp [validateEditPlan, hv, ha, hlen, hmax, hval]
        | ok u =>
          cases u
          refine ⟨⟨"EditPlan contains unexpected fields: " ++
            String.intercalate ", " p.extraKeys⟩, ?_⟩
          simp [validateEditPlan, hv, ha, hlen, hmax, hval, hx]
    · refine ⟨⟨"EditPlan version must be \"1.0\", got: " ++ p.version.getD "undefined"⟩, ?_⟩
      simp [validateEditPlan, hv]
  · intro acts e hv ha hne hmax hval
    have hlen : ¬(acts.length = 0) := by simpa using hne
    have hmax2 : ¬(acts.length > MAX_ACTIONS) := by omega
    simp [validateEditPlan, hv, ha, hlen, hmax2, hval]
  · intro acts hv ha hne hmax hval
    have hlen : ¬(acts.length = 0) := by simpa using hne
    have hmax2 : ¬(acts.length > MAX_ACTIONS) := by omega
    simp [validateEditPlan, hv, ha, hlen, hmax2, hval, hx]

/-- A raw plan with one well-formed `correct_text` action plus an extra
top-level key. -/
def extraKeyPlan : RawPlan :=
  { version := some "1.0",
    actions := some [{ type := "correct_text", search_text := some "teh",
                       replacement_text := some "the" }],
    extraKeys := ["extra"] }

/-- Witness for C4: the concrete plan with one valid action and an extra
key is rejected with the unexpected-fields error. -/
theorem validateEditPlan_unknown_keys_witness :
    validateEditPlan extraKeyPlan =
      Except.error ⟨"EditPlan contains unexpected fields: extra"⟩ := by
  have h := (validateEditPlan_unknown_keys extraKeyPlan (by decide)).2.2
    [{ type := "correct_text", search_text := some "teh", replacement_text := some "the" }]
    rfl rfl (by decide) (by decide) (by decide)
  simpa using h

end Solvid
namespace Solvid

/-! ### Semantic document model (`types/semantic-edit.ts`)

JS `Record` objects are modelled as association lists in key insertion
order (`Object.keys` enumerates them in that order). -/

structure DocumentBlock where
  id : String
  type : String
  text : String
  level : Option Nat := none
  deriving Repr, DecidableEq

structure DocumentSection where
  id : String
  title : String
  level : Nat
  blocks : List String
  deriving Repr, DecidableEq

structure SemanticDocument where
  sections : List DocumentSection
  blocks : List (String × DocumentBlock)
  deriving Repr, DecidableEq

structure SemanticOperation where
  action : String
  target_block_id : String
  content : String
  reason : String
  deriving Repr, DecidableEq

structure SemanticEditPlan where
  ops : List SemanticOperation
  deriving Repr, DecidableEq

/-- One entry of the `paragraphData` array the engine loads up front:
the paragraph's trimmed text and style. -/
structure ParaData where
  text : String
  style : String
  deriving Repr, DecidableEq

def buildParaData (paras : List Para) : List ParaData :=
  paras.map (fun p => { text := jsTrim p.text, style := p.style })

/-- JS string interpolation of `block.level` (`undefined` when absent). -/
def levelStr : Option Nat → String
  | some l => toString l
  | none => "undefined"

/-! ### Block-ID re-matching (`executeSemanticEditPlan`, first half) -/

/-- First pass: exact trimmed text equality, plus exact heading-level
style equality for heading blocks. -/
def firstPassMatch (block : DocumentBlock) (pd : ParaData) : Bool :=
  pd.text = jsTrim block.text &&
    (if block.type = "heading" then pd.style = "Heading " ++ levelStr block.level else true)

/-- Second pass: case-insensitive equality, or containment in either
direction when the block text exceeds 10 characters; headings still need
the exact style. -/
def secondPassMatch (block : DocumentBlock) (pd : ParaData) : Bool :=
  let paraText := jsToLower pd.text
  let blockText := jsToLower (jsTrim block.text)
  (paraText = blockText ||
     (blockText.length > 10 && strIncludes paraText blockText) ||
     (blockText.length > 10 && strIncludes blockText paraText)) &&
    (if block.type = "heading" then pd.style = "Heading " ++ levelStr block.level else true)

/-- First paragraph index that is not yet used and satisfies the pass
predicate. -/
def findUnusedIdx (pds : List ParaData) (used : List Nat) (pred : ParaData → Bool) :
    Option Nat :=
  (pds.enum.find? (fun q => !used.contains q.1 && pred q.2)).map Prod.fst

/-- The two-pass search for one block. -/
def findMatchingPara (pds : List ParaData) (used : List Nat) (block : DocumentBlock) :
    Option Nat :=
  match findUnusedIdx pds used (firstPassMatch block) with
  | some i => some i
  | none => findUnusedIdx pds used (secondPassMatch block)

/-- `blockIdToParagraphIndex[blockId] = matchedIndex` (JS object write:
later writes win). -/
def mapUpdate (m : String → Option Nat) (k : String) (v : Nat) : String → Option Nat :=
  fun x => if x = k then some v else m x

/-- The `for section / for blockId` loop: a missing block is skipped with
a warning; a matched paragraph is recorded and marked used. -/
def buildMappingGo (blocksMap : List (String × DocumentBlock)) (pds : List ParaData) :
    List String → (String → Option Nat) → List Nat → ((String → Option Nat) × List Nat)
  | [], m, used => (m, used)
  | bid :: rest, m, used =>
    match blocksMap.lookup bid with
    | none => buildMappingGo blocksMap pds rest m used
    | some block =>
      match findMatchingPara pds used block with
      | some i => buildMappingGo blocksMap pds rest (mapUpdate m bid i) (i :: used)
      | none => buildMappingGo blocksMap pds rest m used

def sectionBlockIds (struct : SemanticDocument) : List String :=
  (struct.sections.map DocumentSection.blocks).flatten

def buildBlockMapping (struct : SemanticDocument) (pds : List ParaData) :
    String → Option Nat :=
  (buildMappingGo struct.blocks pds (sectionBlockIds struct) (fun _ => none) []).1

/-! ### Semantic operations (`executeSemanticOperation`)

The mutate phase is embedded as the pending host effect the operation
issues (the paragraph index refers to the originally loaded paragraph
collection, as in the source, which indexes `paragraphs.items` loaded
before any operation ran). -/

inductive SemOpEffect where
  | replace (paraIdx : Nat) (content : String)
  | insertAfter (paraIdx : Nat) (content : String)
  | insertBefore (paraIdx : Nat) (content : String)
  deriving Repr, DecidableEq

/-- `Object.keys(documentStructure.blocks).join(", ") || "none"`. -/
def availableIdsStr (struct : SemanticDocument) : String :=
  let s := String.intercalate ", " (struct.blocks.map Prod.fst)
  if s = "" then "none" else s

def executeSemanticOperation (op : SemanticOperation) (mapping : String → Option Nat)
    (paraCount : Nat) (struct : SemanticDocument) :
    Except ExecutionError (Option SemOpEffect) :=
  match struct.blocks.lookup op.target_block_id with
  | none =>
    Except.error ⟨"Block ID " ++ op.target_block_id ++
      " not found in document structure. Available block IDs: " ++ availableIdsStr struct⟩
  | some _ =>
    match mapping op.target_block_id with
    | none =>
      let blockText := match struct.blocks.lookup op.target_block_id with
        | some b => strTake b.text 50
        | none => "unknown"
      Except.error ⟨"Block ID " ++ op.target_block_id ++
        " not found in document. Block text: \"" ++ blockText ++
        "...\". This may happen if the document was modified after the edit plan was generated."⟩
    | some i =>
      if i ≥ paraCount then
        Except.error ⟨"Invalid paragraph index " ++ toString i ++ " for block ID " ++
          op.target_block_id⟩
      else if op.action = "replace" then
        Except.ok (some (SemOpEffect.replace i op.content))
      else if op.action = "insert_after" then
        Except.ok (some (SemOpEffect.insertAfter i (op.content ++ "\n")))
      else if op.action = "insert_before" then
        Except.ok (some (SemOpEffect.insertBefore i (op.content ++ "\n")))
      else Except.ok none

/-- Operations run strictly in order; the first error aborts the rest. -/
def runSemanticOps : List SemanticOperation → (String → Option Nat) → Nat → SemanticDocument →
    Except ExecutionError (List (Option SemOpEffect))
  | [], _, _, _ => Except.ok []
  | op :: rest, mapping, n, struct =>
    match executeSemanticOperation op mapping n struct with
    | Except.error e => Except.error e
    | Except.ok eff =>
      match runSemanticOps rest mapping n struct with
      | Except.error e => Except.error e
      | Except.ok effs => Except.ok (eff :: effs)

/-- `executeSemanticEditPlan`: paragraph data load, re-matching, ordered
operation execution, with the outer catch wrapping any failure. -/
def executeSemanticEditPlan (plan : SemanticEditPlan) (struct : SemanticDocument)
    (paras : List Para) : Except ExecutionError (List (Option SemOpEffect)) :=
  let pds := buildParaData paras
  let mapping := buildBlockMapping struct pds
  match runSemanticOps plan.ops mapping paras.length struct with
  | Except.ok effs => Except.ok effs
  | Except.error e => Except.error ⟨"Failed to execute semantic edit plan: " ++ e.message⟩

end Solvid
namespace Solvid

/-- A found index is not in the used set. -/
theorem findUnusedIdx_not_used (pds : List ParaData) (used : List Nat)
    (pred : ParaData → Bool) (i : Nat) (h : findUnusedIdx pds used pred = some i) :
    ¬(i ∈ used) := by
  unfold findUnusedIdx at h
  cases hf : pds.enum.find? (fun q => !used.contains q.1 && pred q.2) with
  | none => rw [hf] at h; cases h
  | some q =>
    rw [hf] at h
    have hq := List.find?_some hf
    simp only [Bool.and_eq_true, Bool.not_eq_true'] at hq
    have : q.1 = i := by simpa using h
    rw [← this]
    intro hmem
    have hc := hq.1
    simp at hc
    exact hc hmem

theorem findMatchingPara_not_used (pds : List ParaData) (used : List Nat)
    (block : DocumentBlock) (i : Nat) (h : findMatchingPara pds used block = some i) :
    ¬(i ∈ used) := by
  unfold findMatchingPara at h
  cases h1 : findUnusedIdx pds used (firstPassMatch block) with
  | some j =>
    rw [h1] at h
    obtain rfl : j = i := by simpa using h
    exact findUnusedIdx_not_used pds used _ j h1
  | none =>
    rw [h1] at h
    exact findUnusedIdx_not_used pds used _ i h

end Solvid
namespace Solvid

/-- Invariant carried by the re-matching loop: every mapped index is in
the used set, and the mapping is injective on its domain. -/
def MappingInv (m : String → Option Nat) (used : List Nat) : Prop :=
  (∀ b i, m b = some i → i ∈ used) ∧
  (∀ b1 b2 i, m b1 = some i → m b2 = some i → b1 = b2)

theorem buildMappingGo_inv (blocksMap : List (String × DocumentBlock)) (pds : List ParaData) :
    ∀ (bids : List String) (m : String → Option Nat) (used : List Nat),
      MappingInv m used →
      MappingInv (buildMappingGo blocksMap pds bids m used).1
        (buildMappingGo blocksMap pds bids m used).2 := by
  intro bids
  induction bids with
  | nil => intro m used hinv; exact hinv
  | cons bid rest ih =>
    intro m used hinv
    cases hb : blocksMap.lookup bid with
    | none =>
      simp only [buildMappingGo, hb]
      exact ih m used hinv
    | some block =>
      cases hfind : findMatchingPara pds used block with
      | none =>
        simp only [buildMappingGo, hb, hfind]
        exact ih m used hinv
      | some i =>
        simp only [buildMappingGo, hb, hfind]
        have hni : ¬(i ∈ used) := findMatchingPara_not_used pds used block i hfind
        refine ih (mapUpdate m bid i) (i :: used) ⟨?_, ?_⟩
        · intro b j hj
          by_cases hbk : b = bid
          · subst hbk
            simp [mapUpdate] at hj
            subst hj
            exact List.mem_cons_self i used
          · simp only [mapUpdate, if_neg hbk] at hj
            exact List.mem_cons_of_mem i (hinv.1 b j hj)
        · intro b1 b2 j h1 h2
          by_cases hb1 : b1 = bid <;> by_cases hb2 : b2 = bid
          · rw [hb1, hb2]
          · exfalso
            subst hb1
            simp [mapUpdate] at h1
            simp only [mapUpdate, if_neg hb2] at h2
            exact hni (h1 ▸ hinv.1 b2 j h2)
          · exfalso
            subst hb2
            simp only [mapUpdate, if_neg hb1] at h1
            simp [mapUpdate] at h2
            exact hni (h2 ▸ hinv.1 b1 j h1)
          · simp only [mapUpdate, if_neg hb1] at h1
            simp only [mapUpdate, if_neg hb2] at h2
            exact hinv.2 b1 b2 j h1 h2

/-- Two identical paragraphs and two identical-text blocks, for the
re-match uniqueness scenario. -/
def twinStruct : SemanticDocument :=
  { sections := [⟨"s1", "Introduction", 1, ["b1", "b2"]⟩],
    blocks := [("b1", ⟨"b1", "paragraph", "same text here", none⟩),
               ("b2", ⟨"b2", "paragraph", "same text here", none⟩)] }

def twinParas : List ParaData :=
  [{ text := "same text here", style := "Normal" },
   { text := "same text here", style := "Normal" }]

/-- C7: the block-ID-to-live-paragraph re-matching is injective — matched
paragraphs leave the candidate pool, so distinct block IDs never share a
paragraph, even with duplicated text; the first pass demands exact text
(and for headings exact heading-level style), and the second pass allows
case-insensitive containment only for block texts longer than 10
characters. -/
theorem semantic_mapping_injective :
    (∀ struct pds b1 b2 i, b1 ≠ b2 →
       buildBlockMapping struct pds b1 = some i →
       buildBlockMapping struct pds b2 = some i → False) ∧
    (∀ block pd, firstPassMatch block pd = true ↔
       (pd.text = jsTrim block.text ∧
        (block.type = "heading" → pd.style = "Heading " ++ levelStr block.level))) ∧
    (∀ block pd, (jsToLower (jsTrim block.text)).length ≤ 10 →
       secondPassMatch block pd = true →
       jsToLower pd.text = jsToLower (jsTrim block.text)) ∧
    (∀ block pd, (jsToLower (jsTrim block.text)).length > 10 →
       (strIncludes (jsToLower pd.text) (jsToLower (jsTrim block.text)) = true ∨
        strIncludes (jsToLower (jsTrim block.text)) (jsToLower pd.text) = true) →
       (block.type = "heading" → pd.style = "Heading " ++ levelStr block.level) →
       secondPassMatch block pd = true) ∧
    (buildBlockMapping twinStruct twinParas "b1" = some 0 ∧
     buildBlockMapping twinStruct twinParas "b2" = some 1) := by
  refine ⟨?_, ?_, ?_, ?_, by constructor <;> rfl⟩
  · intro struct pds b1 b2 i hne h1 h2
    have hinv := buildMappingGo_inv struct.blocks pds (sectionBlockIds struct)
      (fun _ => none) []
      ⟨fun b i h => Option.noConfusion h, fun b1 b2 i h => Option.noConfusion h⟩
    exact hne (hinv.2 b1 b2 i h1 h2)
  · intro block pd
    by_cases hh : block.type = "heading"
    · simp [firstPassMatch, hh]
    · simp [firstPassMatch, hh]
  · intro block pd hlen hm
    have hnotgt : ¬((jsToLower (jsTrim block.text)).length > 10) := by omega
    simp only [secondPassMatch, Bool.and_eq_true, Bool.or_eq_true,
      decide_eq_true_eq] at hm
    rcases hm.1 with (h | ⟨hgt, -⟩) | ⟨hgt, -⟩
    · exact h
    · exact absurd hgt hnotgt
    · exact absurd hgt hnotgt
  · intro block pd hlen hcont hstyle
    rw [secondPassMatch]
    simp only [Bool.and_eq_true, Bool.or_eq_true, decide_eq_true_eq]
    constructor
    · rcases hcont with h | h
      · exact Or.inl (Or.inr ⟨hlen, h⟩)
      · exact Or.inr ⟨hlen, h⟩
    · by_cases hh : block.type = "heading"
      · simp [hh, hstyle hh]
      · simp [hh]

/-- Witness for C7: the mapping at a concrete snapshot with recurring
text, plus the first-pass characterisation at a concrete block. -/
theorem semantic_mapping_injective_witness :
    ("b1" : String) ≠ "b2" ∧
    buildBlockMapping twinStruct twinParas "b1" = some 0 ∧
    buildBlockMapping twinStruct twinParas "b2" = some 1 ∧
    firstPassMatch ⟨"b1", "paragraph", " same text here ", none⟩
      { text := "same text here", style := "Normal" } = true := by
  refine ⟨by decide, semantic_mapping_injective.2.2.2.2.1,
    semantic_mapping_injective.2.2.2.2.2, ?_⟩
  exact (semantic_mapping_injective.2.1 ⟨"b1", "paragraph", " same text here ", none⟩
    { text := "same text here", style := "Normal" }).mpr
    ⟨by decide, fun h => absurd h (by decide)⟩

end Solvid
namespace Solvid

/-- `strIncludes`/`listInfix` agrees with Mathlib's infix relation. -/
theorem listInfix_iff (sub : List Char) :
    ∀ l : List Char, listInfix sub l = true ↔ sub <:+: l := by
  intro l
  induction l with
  | nil =>
    rw [listInfix]
    constructor
    · intro h
      obtain rfl : sub = [] := by simpa [List.isEmpty_iff] using h
      exact List.infix_refl []
    · intro h
      obtain rfl : sub = [] := List.eq_nil_of_infix_nil h
      rfl
  | cons c rest ih =>
    rw [listInfix]
    simp only [Bool.or_eq_true, List.isPrefixOf_iff_prefix, ih]
    constructor
    · rintro (h | h)
      · exact h.isInfix
      · exact h.trans (List.suffix_cons c rest).isInfix
    · intro h
      rcases List.infix_cons_iff.mp h with h | h
      · exact Or.inl h
      · exact Or.inr h

/-- A component of a concatenation is included in it. -/
theorem strIncludes_parts (x sub y : String) : strIncludes (x ++ sub ++ y) sub = true := by
  show listInfix sub.data (x ++ sub ++ y).data = true
  rw [listInfix_iff, String.data_append, String.data_append]
  exact List.infix_append x.data sub.data y.data

/-- A changed-document scenario: the snapshot knows `b3` as "Original
paragraph three", but the live document no longer contains that text. -/
def b3Struct : SemanticDocument :=
  { sections := [⟨"s1", "Introduction", 1, ["b1", "b2", "b3"]⟩],
    blocks := [("b1", ⟨"b1", "paragraph", "Alpha block one", none⟩),
               ("b2", ⟨"b2", "paragraph", "Beta block two", none⟩),
               ("b3", ⟨"b3", "paragraph", "Original paragraph three", none⟩)] }

def b3Paras : List Para :=
  [{ style := "Normal", text := "Alpha block one" },
   { style := "Normal", text := "Beta block two" },
   { style := "Normal", text := "Changed content" }]

def b3Plan : SemanticEditPlan :=
  { ops := [{ action := "replace", target_block_id := "b3",
              content := "New text", reason := "fix" }] }

/-- The middle component of a concatenation is an infix of it. -/
theorem infix_mid (A B C : List Char) : B <:+: A ++ (B ++ C) :=
  ((List.prefix_append B C).isInfix).trans (List.suffix_append A (B ++ C)).isInfix

/-- C8: a semantic operation on a block ID absent from the snapshot fails
immediately with an error listing the full set of valid block IDs; an ID
that is in the snapshot but was not re-matched to a live paragraph fails
with an error naming the ID, a 50-character prefix of its original text,
and the document-changed-after-extraction explanation — concretely, the
replace of `b3` after the document changed raises an `ExecutionError`
naming `b3` and its original text. -/
theorem semantic_operation_errors :
    (∀ op mapping n struct, struct.blocks.lookup op.target_block_id = none →
       executeSemanticOperation op mapping n struct = Except.error
         ⟨"Block ID " ++ op.target_block_id ++
           " not found in document structure. Available block IDs: " ++
           availableIdsStr struct⟩) ∧
    (∀ op mapping n struct b, struct.blocks.lookup op.target_block_id = some b →
       mapping op.target_block_id = none →
       ∃ msg, executeSemanticOperation op mapping n struct = Except.error ⟨msg⟩ ∧
         msg = "Block ID " ++ op.target_block_id ++
           " not found in document. Block text: \"" ++ strTake b.text 50 ++
           "...\". This may happen if the document was modified after the edit plan was generated." ∧
         strIncludes msg op.target_block_id = true ∧
         strIncludes msg (strTake b.text 50) = true) ∧
    (∃ msg, executeSemanticEditPlan b3Plan b3Struct b3Paras = Except.error ⟨msg⟩ ∧
       strIncludes msg "b3" = true ∧
       strIncludes msg "Original paragraph three" = true) := by
  refine ⟨?_, ?_, ?_⟩
  · intro op mapping n struct h
    simp only [executeSemanticOperation, h]
  · intro op mapping n struct b hb hm
    refine ⟨_, ?_, rfl, ?_, ?_⟩
    · simp only [executeSemanticOperation, hb, hm]
    · show listInfix _ _ = true
      rw [listInfix_iff]
      have hdata : ("Block ID " ++ op.target_block_id ++
          " not found in document. Block text: \"" ++ strTake b.text 50 ++
          "...\". This may happen if the document was modified after the edit plan was generated.").data =
          ("Block ID ").data ++ (op.target_block_id.data ++
            ((" not found in document. Block text: \"").data ++ ((strTake b.text 50).data ++
              ("...\". This may happen if the document was modified after the edit plan was generated.").data))) := by
        simp [String.data_append, List.append_assoc]
      rw [hdata]
      exact infix_mid _ _ _
    · show listInfix _ _ = true
      rw [listInfix_iff]
      have hdata : ("Block ID " ++ op.target_block_id ++
          " not found in document. Block text: \"" ++ strTake b.text 50 ++
          "...\". This may happen if the document was modified after the edit plan was generated.").data =
          (("Block ID ").data ++ (op.target_block_id.data ++
            (" not found in document. Block text: \"").data)) ++ ((strTake b.text 50).data ++
              ("...\". This may happen if the document was modified after the edit plan was generated.").data) := by
        simp [String.data_append, List.append_assoc]
      rw [hdata]
      exact infix_mid _ _ _
  · exact ⟨_, rfl, by decide, by decide⟩

/-- Witness for C8: the two error paths at a concrete snapshot — an
unknown block ID lists all valid IDs, and the unmatched `b3` is named
together with its original text. -/
theorem semantic_operation_errors_witness :
    executeSemanticOperation
      { action := "replace", target_block_id := "zzz", content := "x", reason := "r" }
      (fun _ => none) 3 b3Struct = Except.error
        ⟨"Block ID zzz not found in document structure. Available block IDs: b1, b2, b3"⟩ ∧
    (∃ msg, executeSemanticOperation
        { action := "replace", target_block_id := "b3", content := "x", reason := "r" }
        (fun _ => none) 3 b3Struct = Except.error ⟨msg⟩ ∧
      strIncludes msg "b3" = true ∧
      strIncludes msg (strTake "Original paragraph three" 50) = true) := by
  constructor
  · exact (semantic_operation_errors.1
      { action := "replace", target_block_id := "zzz", content := "x", reason := "r" }
      (fun _ => none) 3 b3Struct rfl).trans (by decide)
  · obtain ⟨msg, h1, _h2, h3, h4⟩ := semantic_operation_errors.2.1
      { action := "replace", target_block_id := "b3", content := "x", reason := "r" }
      (fun _ => none) 3 b3Struct ⟨"b3", "paragraph", "Original paragraph three", none⟩ rfl rfl
    exact ⟨msg, h1, h3, h4⟩

end Solvid
namespace Solvid

/-! ### Semantic document extraction (`api-service.ts`, `getSemanticDocument`)

The extractor walks the paragraphs once.  A paragraph's contribution
depends only on whether its trimmed text is empty, its style class
(Heading 1/2/3 or anything else), and the trimmed text — captured by
`ParaKind`/`itemsOf`. -/

inductive ParaKind where
  | paragraph
  | h1
  | h2
  | h3
  deriving Repr, DecidableEq

def paraKindOf (style : String) : ParaKind :=
  if style = "Heading 1" then ParaKind.h1
  else if style = "Heading 2" then ParaKind.h2
  else if style = "Heading 3" then ParaKind.h3
  else ParaKind.paragraph

/-- `style === "Heading 1" ? 1 : style === "Heading 2" ? 2 : 3`. -/
def kindLevel : ParaKind → Nat
  | ParaKind.h1 => 1
  | ParaKind.h2 => 2
  | ParaKind.h3 => 3
  | ParaKind.paragraph => 0

structure ExtState where
  sections : List DocumentSection
  blocks : List (String × DocumentBlock)
  blockCounter : Nat
  sectionCounter : Nat
  currentSectionId : Option String
  currentSectionBlocks : List String
  deriving Repr, DecidableEq

def initExtState : ExtState :=
  { sections := [], blocks := [], blockCounter := 1, sectionCounter := 1,
    currentSectionId := none, currentSectionBlocks := [] }

/-- The heading case of the loop body: first push a snapshot of the
current section when one is open and non-empty (`sections.find` looks the
title/level up from the first entry with that id), then start the new
section with the heading itself as first block. -/
def stepHeading (level : Nat) (text : String) (st : ExtState) : ExtState :=
  let blockId := "b" ++ toString st.blockCounter
  let saved :=
    if st.currentSectionId.isSome ∧ st.currentSectionBlocks.length > 0 then
      st.sections ++ [⟨st.currentSectionId.getD "",
        ((st.sections.find? (fun s => s.id = st.currentSectionId.getD "")).map
          DocumentSection.title).getD "",
        ((st.sections.find? (fun s => s.id = st.currentSectionId.getD "")).map
          DocumentSection.level).getD 1,
        st.currentSectionBlocks⟩]
    else st.sections
  let sectionId := "s" ++ toString st.sectionCounter
  { sections := saved ++ [⟨sectionId, text, level, [blockId]⟩]
    blocks := st.blocks ++ [(blockId, ⟨blockId, "heading", text, some level⟩)]
    blockCounter := st.blockCounter + 1
    sectionCounter := st.sectionCounter + 1
    currentSectionId := some sectionId
    currentSectionBlocks := [blockId] }

/-- One non-empty paragraph of the loop body.  A paragraph joins the
current section, or synthesizes the `"Introduction"` section when none is
open; a heading goes through `stepHeading`. -/
def stepItem (k : ParaKind) (text : String) (st : ExtState) : ExtState :=
  match k with
  | ParaKind.paragraph =>
    let blockId := "b" ++ toString st.blockCounter
    let newBlocks := st.blocks ++ [(blockId, ⟨blockId, "paragraph", text, none⟩)]
    match st.currentSectionId with
    | some _ =>
      { st with
        blocks := newBlocks
        blockCounter := st.blockCounter + 1
        currentSectionBlocks := st.currentSectionBlocks ++ [blockId] }
    | none =>
      let sectionId := "s" ++ toString st.sectionCounter
      { sections := st.sections ++ [⟨sectionId, "Introduction", 1, [blockId]⟩]
        blocks := newBlocks
        blockCounter := st.blockCounter + 1
        sectionCounter := st.sectionCounter + 1
        currentSectionId := some sectionId
        currentSectionBlocks := [blockId] }
  | k => stepHeading (kindLevel k) text st

/-- The source's end-of-loop save: `sections.find(...)` returns the first
entry with the current section's id, whose `blocks` field is overwritten
in place. -/
def replaceFirstBlocks : List DocumentSection → String → List String → List DocumentSection
  | [], _, _ => []
  | s :: rest, cid, bs =>
    if s.id = cid then { s with blocks := bs } :: rest
    else s :: replaceFirstBlocks rest cid bs

def finalizeExt (st : ExtState) : SemanticDocument :=
  let sections :=
    if st.currentSectionId.isSome ∧ st.currentSectionBlocks.length > 0 then
      replaceFirstBlocks st.sections (st.currentSectionId.getD "") st.currentSectionBlocks
    else st.sections
  -- the final `sections.map` in the source copies each record verbatim
  { sections := sections, blocks := st.blocks }

def extractLoop : List Para → ExtState → ExtState
  | [], st => st
  | p :: rest, st =>
    let text := jsTrim p.text
    if text = "" then extractLoop rest st
    else extractLoop rest (stepItem (paraKindOf p.style) text st)

def getSemanticDocument (paras : List Para) : SemanticDocument :=
  finalizeExt (extractLoop paras initExtState)

/-- The abstract item sequence the extractor consumes: kind and trimmed
text of each non-empty paragraph, in order. -/
def itemsOf (paras : List Para) : List (ParaKind × String) :=
  paras.filterMap (fun p =>
    if jsTrim p.text = "" then none else some (paraKindOf p.style, jsTrim p.text))

def itemsLoop : List (ParaKind × String) → ExtState → ExtState
  | [], st => st
  | (k, t) :: rest, st => itemsLoop rest (stepItem k t st)

/-- Writing every block back as a paragraph with the matching style. -/
def styleOfBlock (b : DocumentBlock) : String :=
  if b.type = "heading" then "Heading " ++ levelStr b.level else "Normal"

def renderSemanticDocument (d : SemanticDocument) : List Para :=
  d.blocks.map (fun q => { style := styleOfBlock q.2, text := q.2.text })

/-- The block entry produced for the `n`-th item (counter value `n`). -/
def mkBlock (n : Nat) (it : ParaKind × String) : String × DocumentBlock :=
  let blockId := "b" ++ toString n
  match it.1 with
  | ParaKind.paragraph => (blockId, ⟨blockId, "paragraph", it.2, none⟩)
  | k => (blockId, ⟨blockId, "heading", it.2, some (kindLevel k)⟩)

def numberBlocks : Nat → List (ParaKind × String) → List (String × DocumentBlock)
  | _, [] => []
  | n, it :: rest => mkBlock n it :: numberBlocks (n + 1) rest

/-- The expected `bN` id sequence starting at `n`. -/
def bIds (n : Nat) : Nat → List String
  | 0 => []
  | len + 1 => ("b" ++ toString n) :: bIds (n + 1) len

/-- Kind and text recovered from a rendered block. -/
def blockItem (q : String × DocumentBlock) : ParaKind × String :=
  (paraKindOf (styleOfBlock q.2), q.2.text)

end Solvid
namespace Solvid

/-- A prefix of a list whose head does not satisfy `p` is itself fixed by
`dropWhile p`. -/
theorem prefix_dropWhile_eq_self {p : Char → Bool} {m B : List Char}
    (hpre : B <+: m) (hm : List.dropWhile p m = m) : List.dropWhile p B = B := by
  cases B with
  | nil => rfl
  | cons b bs =>
    obtain ⟨t, ht⟩ := hpre
    subst ht
    have hhd := List.dropWhile_eq_self_iff.mp hm (by simp)
    have hpb : p b = false := by
      cases hx : p b with
      | false => rfl
      | true => exact absurd hx hhd
    simp [List.dropWhile_cons, hpb]

theorem trimChars_idem (l : List Char) : trimChars (trimChars l) = trimChars l := by
  have heq : ∀ m : List Char,
      trimChars m = List.rdropWhile Char.isWhitespace
        (List.dropWhile Char.isWhitespace m) := fun m => rfl
  rw [heq, heq]
  have h1 : List.dropWhile Char.isWhitespace
      (List.rdropWhile Char.isWhitespace (List.dropWhile Char.isWhitespace l)) =
      List.rdropWhile Char.isWhitespace (List.dropWhile Char.isWhitespace l) :=
    prefix_dropWhile_eq_self
      (List.rdropWhile_prefix Char.isWhitespace (List.dropWhile Char.isWhitespace l))
      (List.dropWhile_idempotent Char.isWhitespace l)
  rw [h1, List.rdropWhile_idempotent]

theorem jsTrim_idem (s : String) : jsTrim (jsTrim s) = jsTrim s :=
  congrArg String.mk (trimChars_idem s.data)

/-- The extraction loop consumes only the item sequence. -/
theorem extractLoop_eq_itemsLoop :
    ∀ (paras : List Para) (st : ExtState),
      extractLoop paras st = itemsLoop (itemsOf paras) st := by
  intro paras
  induction paras with
  | nil => intro st; rfl
  | cons p rest ih =>
    intro st
    simp only [extractLoop, itemsOf, List.filterMap_cons]
    by_cases h : jsTrim p.text = ""
    · rw [if_pos h, if_pos h]
      exact ih st
    · rw [if_neg h, if_neg h, itemsLoop]
      exact ih (stepItem (paraKindOf p.style) (jsTrim p.text) st)

theorem getSemanticDocument_eq_items (paras : List Para) :
    getSemanticDocument paras = finalizeExt (itemsLoop (itemsOf paras) initExtState) := by
  rw [getSemanticDocument, extractLoop_eq_itemsLoop]

/-- What one step does to the block list and counter. -/
theorem stepItem_blocks (k : ParaKind) (t : String) (st : ExtState) :
    (stepItem k t st).blocks = st.blocks ++ [mkBlock st.blockCounter (k, t)] ∧
    (stepItem k t st).blockCounter = st.blockCounter + 1 := by
  cases k <;> cases hcs : st.currentSectionId <;>
    simp [stepItem, stepHeading, mkBlock, hcs, kindLevel]

theorem itemsLoop_blocks :
    ∀ (items : List (ParaKind × String)) (st : ExtState),
      (itemsLoop items st).blocks = st.blocks ++ numberBlocks st.blockCounter items := by
  intro items
  induction items with
  | nil => intro st; simp [itemsLoop, numberBlocks]
  | cons it rest ih =>
    intro st
    obtain ⟨k, t⟩ := it
    rw [itemsLoop, numberBlocks, ih]
    rw [(stepItem_blocks k t st).1, (stepItem_blocks k t st).2]
    simp

theorem getSemanticDocument_blocks (paras : List Para) :
    (getSemanticDocument paras).blocks = numberBlocks 1 (itemsOf paras) := by
  rw [getSemanticDocument_eq_items]
  have hfin : ∀ st : ExtState, (finalizeExt st).blocks = st.blocks := fun st => rfl
  rw [hfin, itemsLoop_blocks]
  rfl

end Solvid
namespace Solvid

theorem blockItem_mkBlock (n : Nat) (it : ParaKind × String) :
    blockItem (mkBlock n it) = it := by
  obtain ⟨k, t⟩ := it
  have e1 : ("Heading " ++ levelStr (some 1) : String) = "Heading 1" := by decide
  have e2 : ("Heading " ++ levelStr (some 2) : String) = "Heading 2" := by decide
  have e3 : ("Heading " ++ levelStr (some 3) : String) = "Heading 3" := by decide
  cases k <;>
    simp [mkBlock, blockItem, styleOfBlock, kindLevel, e1, e2, e3, paraKindOf]

theorem numberBlocks_map_blockItem :
    ∀ (items : List (ParaKind × String)) (n : Nat),
      (numberBlocks n items).map blockItem = items := by
  intro items
  induction items with
  | nil => intro n; rfl
  | cons it rest ih =>
    intro n
    rw [numberBlocks, List.map_cons, blockItem_mkBlock, ih]

theorem numberBlocks_keys :
    ∀ (items : List (ParaKind × String)) (n : Nat),
      (numberBlocks n items).map Prod.fst = bIds n items.length := by
  intro items
  induction items with
  | nil => intro n; rfl
  | cons it rest ih =>
    intro n
    rw [numberBlocks, List.map_cons, List.length_cons, bIds, ih]
    obtain ⟨k, t⟩ := it
    cases k <;> rfl

theorem itemsOf_length_eq_filter (paras : List Para) :
    (itemsOf paras).length = (paras.filter (fun p => !(jsTrim p.text = ""))).length := by
  induction paras with
  | nil => rfl
  | cons p rest ih =>
    by_cases h : jsTrim p.text = ""
    · have h1 : itemsOf (p :: rest) = itemsOf rest := by
        simp only [itemsOf, List.filterMap_cons, if_pos h]
      have h2 : List.filter (fun p => !(jsTrim p.text = "")) (p :: rest) =
          List.filter (fun p => !(jsTrim p.text = "")) rest := by
        rw [List.filter_cons]
        simp [h]
      rw [h1, h2]
      exact ih
    · have h1 : itemsOf (p :: rest) = (paraKindOf p.style, jsTrim p.text) :: itemsOf rest := by
        simp only [itemsOf, List.filterMap_cons, if_neg h]
      have h2 : List.filter (fun p => !(jsTrim p.text = "")) (p :: rest) =
          p :: List.filter (fun p => !(jsTrim p.text = "")) rest := by
        rw [List.filter_cons]
        simp [h]
      rw [h1, h2, List.length_cons, List.length_cons, ih]

/-- Every extracted item carries already-trimmed, non-empty text. -/
theorem itemsOf_text_trimmed (paras : List Para) :
    ∀ it ∈ itemsOf paras, jsTrim it.2 = it.2 ∧ it.2 ≠ "" := by
  intro it hit
  obtain ⟨p, -, hp⟩ := List.mem_filterMap.mp hit
  by_cases h : jsTrim p.text = ""
  · rw [if_pos h] at hp; cases hp
  · rw [if_neg h] at hp
    obtain rfl := Option.some.inj hp
    exact ⟨jsTrim_idem p.text, h⟩

/-- The text of every numbered block comes from its item. -/
theorem numberBlocks_text_mem :
    ∀ (items : List (ParaKind × String)) (n : Nat) (q : String × DocumentBlock),
      q ∈ numberBlocks n items → ∃ it ∈ items, q.2.text = it.2 := by
  intro items
  induction items with
  | nil => intro n q hq; cases hq
  | cons it rest ih =>
    intro n q hq
    rw [numberBlocks] at hq
    rcases List.mem_cons.mp hq with rfl | hq
    · refine ⟨it, List.mem_cons_self it rest, ?_⟩
      obtain ⟨k, t⟩ := it
      cases k <;> rfl
    · obtain ⟨it2, hmem, heq⟩ := ih (n + 1) q hq
      exact ⟨it2, List.mem_cons_of_mem it hmem, heq⟩

theorem itemsOf_render_list :
    ∀ bl : List (String × DocumentBlock),
      (∀ q ∈ bl, jsTrim q.2.text = q.2.text ∧ q.2.text ≠ "") →
      List.filterMap
        (fun p => if jsTrim p.text = "" then none else some (paraKindOf p.style, jsTrim p.text))
        (bl.map (fun q => ({ style := styleOfBlock q.2, text := q.2.text } : Para))) =
        bl.map blockItem := by
  intro bl
  induction bl with
  | nil => intro h; rfl
  | cons q rest ih =>
    intro h
    obtain ⟨hq1, hq2⟩ := h q (List.mem_cons_self q rest)
    have hcond : ¬(jsTrim ({ style := styleOfBlock q.2, text := q.2.text } : Para).text = "") := by
      show ¬(jsTrim q.2.text = "")
      rw [hq1]; exact hq2
    simp only [List.map_cons, List.filterMap_cons, if_neg hcond]
    congr 1
    · show (paraKindOf (styleOfBlock q.2), jsTrim q.2.text) = blockItem q
      rw [hq1]
      rfl
    · exact ih (fun q2 hq => h q2 (List.mem_cons_of_mem q hq))

/-- Rendering a document whose block texts are trimmed and non-empty and
re-reading the items gives back exactly the blocks' kinds and texts. -/
theorem itemsOf_render (d : SemanticDocument)
    (htrim : ∀ q ∈ d.blocks, jsTrim q.2.text = q.2.text ∧ q.2.text ≠ "") :
    itemsOf (renderSemanticDocument d) = d.blocks.map blockItem := by
  rw [itemsOf, renderSemanticDocument]
  exact itemsOf_render_list d.blocks htrim

end Solvid
namespace Solvid

/-- The loop body only ever appends to the sections list. -/
theorem sections_prefix_stepHeading (lv : Nat) (t : String) (st : ExtState) :
    st.sections <+: (stepHeading lv t st).sections := by
  show st.sections <+:
    (if st.currentSectionId.isSome ∧ st.currentSectionBlocks.length > 0 then
      st.sections ++ [⟨st.currentSectionId.getD "",
        ((st.sections.find? (fun s => s.id = st.currentSectionId.getD "")).map
          DocumentSection.title).getD "",
        ((st.sections.find? (fun s => s.id = st.currentSectionId.getD "")).map
          DocumentSection.level).getD 1,
        st.currentSectionBlocks⟩]
    else st.sections) ++
      [⟨"s" ++ toString st.sectionCounter, t, lv, ["b" ++ toString st.blockCounter]⟩]
  refine List.IsPrefix.trans ?_ (List.prefix_append _ _)
  split
  · exact List.prefix_append _ _
  · exact List.prefix_refl _

theorem sections_prefix_stepItem (k : ParaKind) (t : String) (st : ExtState) :
    st.sections <+: (stepItem k t st).sections := by
  cases k with
  | paragraph =>
    cases hcs : st.currentSectionId with
    | some cid =>
      have hsec : (stepItem ParaKind.paragraph t st).sections = st.sections := by
        simp [stepItem, hcs]
      rw [hsec]
    | none =>
      have hsec : (stepItem ParaKind.paragraph t st).sections =
          st.sections ++ [⟨"s" ++ toString st.sectionCounter, "Introduction", 1,
            ["b" ++ toString st.blockCounter]⟩] := by
        simp [stepItem, hcs]
      rw [hsec]
      exact List.prefix_append _ _
  | h1 => exact sections_prefix_stepHeading (kindLevel ParaKind.h1) t st
  | h2 => exact sections_prefix_stepHeading (kindLevel ParaKind.h2) t st
  | h3 => exact sections_prefix_stepHeading (kindLevel ParaKind.h3) t st

theorem sections_prefix_itemsLoop :
    ∀ (items : List (ParaKind × String)) (st : ExtState),
      st.sections <+: (itemsLoop items st).sections := by
  intro items
  induction items with
  | nil => intro st; exact List.prefix_refl _
  | cons it rest ih =>
    intro st
    obtain ⟨k, t⟩ := it
    rw [itemsLoop]
    exact List.IsPrefix.trans (sections_prefix_stepItem k t st) (ih _)

/-- The in-place end-save can change only the first matching section's
`blocks`; the head's id, title and level survive. -/
theorem replaceFirstBlocks_cons (s0 : DocumentSection) (ss : List DocumentSection)
    (cid : String) (bs : List String) :
    ∃ bs2 tail, replaceFirstBlocks (s0 :: ss) cid bs =
      (⟨s0.id, s0.title, s0.level, bs2⟩ : DocumentSection) :: tail := by
  rw [replaceFirstBlocks]
  by_cases h : s0.id = cid
  · exact ⟨bs, ss, by rw [if_pos h]⟩
  · exact ⟨s0.blocks, replaceFirstBlocks ss cid bs, by rw [if_neg h]⟩

theorem finalizeExt_head (st : ExtState) (s0 : DocumentSection) (ss : List DocumentSection)
    (h : st.sections = s0 :: ss) :
    ∃ bs2 tail, (finalizeExt st).sections =
      (⟨s0.id, s0.title, s0.level, bs2⟩ : DocumentSection) :: tail := by
  have hexp : (finalizeExt st).sections =
      (if st.currentSectionId.isSome ∧ st.currentSectionBlocks.length > 0 then
        replaceFirstBlocks st.sections (st.currentSectionId.getD "") st.currentSectionBlocks
      else st.sections) := rfl
  rw [hexp, h]
  by_cases hc : st.currentSectionId.isSome ∧ st.currentSectionBlocks.length > 0
  · rw [if_pos hc]
    exact replaceFirstBlocks_cons s0 ss _ _
  · rw [if_neg hc]
    exact ⟨s0.blocks, ss, rfl⟩

/-- The first non-empty paragraph determines the head section's identity,
title and level; the rest of the document cannot dislodge it. -/
theorem getSemanticDocument_head_of_first (paras : List Para) (k : ParaKind) (t : String)
    (rest : List (ParaKind × String)) (h : itemsOf paras = (k, t) :: rest)
    (s0 : DocumentSection) (hs : (stepItem k t initExtState).sections = [s0]) :
    ((getSemanticDocument paras).sections.head?).map (fun s => (s.id, s.title, s.level)) =
      some (s0.id, s0.title, s0.level) := by
  rw [getSemanticDocument_eq_items, h, itemsLoop]
  obtain ⟨tail, htail⟩ := sections_prefix_itemsLoop rest (stepItem k t initExtState)
  rw [hs] at htail
  obtain ⟨bs2, tail2, hfin⟩ :=
    finalizeExt_head (itemsLoop rest (stepItem k t initExtState)) s0 tail htail.symm
  rw [hfin]
  rfl

end Solvid
namespace Solvid

/-- A document exercising the extractor: content before any heading, an
empty paragraph, a heading, and a trailing paragraph. -/
def demoParas : List Para :=
  [{ style := "Normal", text := "intro text" },
   { style := "Normal", text := "   " },
   { style := "Heading 1", text := "Chapter" },
   { style := "Normal", text := "body" }]

/-- C9: extracting a SemanticDocument, writing every block's text back as
paragraphs with matching heading styles, and re-extracting reproduces the
block/section tree exactly; block IDs are the incrementing `bN` sequence
over the non-empty paragraphs (empty ones are skipped and never get an
ID); content before any heading lands in a synthesized `"Introduction"`
section, and a heading starts a new `sN` section titled by its own text. -/
theorem semantic_extract_roundtrip :
    (∀ paras : List Para,
       getSemanticDocument (renderSemanticDocument (getSemanticDocument paras)) =
         getSemanticDocument paras) ∧
    (∀ paras : List Para,
       (getSemanticDocument paras).blocks.map Prod.fst = bIds 1 (itemsOf paras).length ∧
       (itemsOf paras).length = (paras.filter (fun p => !(jsTrim p.text = ""))).length) ∧
    (∀ (paras : List Para) (t : String) (rest : List (ParaKind × String)),
       itemsOf paras = (ParaKind.paragraph, t) :: rest →
       ((getSemanticDocument paras).sections.head?).map (fun s => (s.id, s.title, s.level)) =
         some ("s1", "Introduction", 1)) ∧
    (∀ (paras : List Para) (k : ParaKind) (t : String) (rest : List (ParaKind × String)),
       itemsOf paras = (k, t) :: rest → k ≠ ParaKind.paragraph →
       ((getSemanticDocument paras).sections.head?).map (fun s => (s.id, s.title, s.level)) =
         some ("s1", t, kindLevel k)) ∧
    getSemanticDocument demoParas =
      { sections := [⟨"s1", "Introduction", 1, ["b1"]⟩,
                     ⟨"s1", "Introduction", 1, ["b1"]⟩,
                     ⟨"s2", "Chapter", 1, ["b2", "b3"]⟩],
        blocks := [("b1", ⟨"b1", "paragraph", "intro text", none⟩),
                   ("b2", ⟨"b2", "heading", "Chapter", some 1⟩),
                   ("b3", ⟨"b3", "paragraph", "body", none⟩)] } := by
  refine ⟨?_, ?_, ?_, ?_, by decide⟩
  · intro paras
    have hblocks := getSemanticDocument_blocks paras
    have htrim : ∀ q ∈ (getSemanticDocument paras).blocks,
        jsTrim q.2.text = q.2.text ∧ q.2.text ≠ "" := by
      intro q hq
      rw [hblocks] at hq
      obtain ⟨it, hit, heq⟩ := numberBlocks_text_mem (itemsOf paras) 1 q hq
      obtain ⟨h1, h2⟩ := itemsOf_text_trimmed paras it hit
      rw [heq]
      exact ⟨h1, h2⟩
    have hitems : itemsOf (renderSemanticDocument (getSemanticDocument paras)) =
        itemsOf paras := by
      rw [itemsOf_render _ htrim, hblocks, numberBlocks_map_blockItem]
    rw [getSemanticDocument_eq_items, hitems, ← getSemanticDocument_eq_items]
  · intro paras
    constructor
    · rw [getSemanticDocument_blocks, numberBlocks_keys]
    · exact itemsOf_length_eq_filter paras
  · intro paras t rest h
    exact getSemanticDocument_head_of_first paras ParaKind.paragraph t rest h
      ⟨"s1", "Introduction", 1, ["b1"]⟩ rfl
  · intro paras k t rest h hk
    cases k with
    | paragraph => exact absurd rfl hk
    | h1 =>
      exact getSemanticDocument_head_of_first paras ParaKind.h1 t rest h
        ⟨"s1", t, kindLevel ParaKind.h1, ["b1"]⟩ rfl
    | h2 =>
      exact getSemanticDocument_head_of_first paras ParaKind.h2 t rest h
        ⟨"s1", t, kindLevel ParaKind.h2, ["b1"]⟩ rfl
    | h3 =>
      exact getSemanticDocument_head_of_first paras ParaKind.h3 t rest h
        ⟨"s1", t, kindLevel ParaKind.h3, ["b1"]⟩ rfl

/-- Witness for C9: the round trip and the head-section facts at the
concrete demo document. -/
theorem semantic_extract_roundtrip_witness :
    getSemanticDocument (renderSemanticDocument (getSemanticDocument demoParas)) =
      getSemanticDocument demoParas ∧
    ((getSemanticDocument demoParas).sections.head?).map (fun s => (s.id, s.title, s.level)) =
      some ("s1", "Introduction", 1) ∧
    ((getSemanticDocument [{ style := "Heading 2", text := "Only" }]).sections.head?).map
        (fun s => (s.id, s.title, s.level)) = some ("s1", "Only", 2) := by
  refine ⟨semantic_extract_roundtrip.1 demoParas, ?_, ?_⟩
  · exact semantic_extract_roundtrip.2.2.1 demoParas "intro text"
      [(ParaKind.h1, "Chapter"), (ParaKind.paragraph, "body")] (by decide)
  · exact semantic_extract_roundtrip.2.2.2.1 [{ style := "Heading 2", text := "Only" }]
      ParaKind.h2 "Only" [] (by decide) (by decide)

end Solvid
